import Mathlib

/-!
Shallow embedding of the chassis-core vector index engine
(`src/chassis-core/src/{storage.rs, header.rs, lib.rs, hnsw/*.rs}`) and
verification of its specified properties.

Modelling conventions:

* Machine integers (`u64`, `usize`, …) are modelled as `Nat`; truncating casts
  are written with an explicit `% 2 ^ w` where they occur in the source.
* f32 payloads stored in the vector zone are opaque 32-bit patterns, modelled
  as `Nat`; the storage layer copies them bit-for-bit and never interprets
  them.
* Distances computed by the f32 Euclidean kernel are abstracted by a distance
  oracle valued in `ℚ` (every finite f32 is a rational, and `f32::total_cmp`
  restricted to the values actually compared is a linear order); theorems
  about graph algorithms are proved for every oracle, hence for the kernel.
* Fallible Rust functions returning `anyhow::Result` are modelled with
  `Except String`; `panic!`/`assert!` sites are modelled as `Except` errors.
* The memory map of the vector zone is modelled at 4-byte word granularity:
  `mem o` is the 32-bit pattern of the f32 word starting at byte offset `o`.
  Every vector-zone access in the source reads or writes whole 4-byte-aligned
  f32 words, so this is a faithful view of the byte region.
-/

/-- Size of the file header in bytes (one 4 KiB page); `header.rs::HEADER_SIZE`. -/
def HEADER_SIZE : Nat := 4096

/-- Page size for file alignment; `storage.rs::PAGE_SIZE`. -/
def PAGE_SIZE : Nat := 4096

/-- Fixed start of the graph zone (1 GiB);
`graph.rs::find_or_create_graph_start::GRAPH_ZONE_START`. -/
def GRAPH_ZONE_START : Nat := 1024 * 1024 * 1024

/-- Model of `storage.rs::Storage` together with the file-header fields it
manipulates: `dims` and `count` are the `dimensions` and `count` fields of the
mapped `Header`, `mmapLen` is `self.mmap.len()`, and `mem` is the vector-zone
view of the mapping (see the module comment). -/
structure Storage where
  dims : Nat
  count : Nat
  mmapLen : Nat
  mem : Nat → Nat

/-- `storage.rs::Storage::ensure_capacity`. Rounds the required size up to the
next 4 KiB boundary (`(required + PAGE_SIZE - 1) & !(PAGE_SIZE - 1)`, written
here in division form) and grows the mapping. `ioFail` models a failing
`set_len`/`map_mut` syscall, which leaves the previous mapping intact; the
returned `Bool` is `true` on success. -/
def Storage.ensure_capacity (s : Storage) (required : Nat) (ioFail : Bool) :
    Storage × Bool :=
  if required ≤ s.mmapLen then (s, true)
  else if ioFail then (s, false)
  else ({ s with mmapLen := (required + PAGE_SIZE - 1) / PAGE_SIZE * PAGE_SIZE }, true)

/-- `storage.rs::Storage::insert`. Validates the length, grows the mapping,
writes the vector words at `HEADER_SIZE + count * dims * 4`, and only then
increments `count` (data-before-metadata). Returns the post state together
with the result; on either error path the source returns before mutating
anything, so the pre state is returned unchanged. -/
def Storage.insert (s : Storage) (vector : List Nat) (ioFail : Bool) :
    Storage × Except String Nat :=
  if vector.length ≠ s.dims then
    (s, .error "Vector dimension mismatch")
  else
    let current_count := s.count
    let vector_bytes := s.dims * 4
    let offset := HEADER_SIZE + current_count * vector_bytes
    let required_size := offset + vector_bytes
    match s.ensure_capacity required_size ioFail with
    | (s₁, false) => (s₁, .error "Failed to grow file")
    | (s₁, true) =>
      let mem' := fun o =>
        if offset ≤ o ∧ o < offset + vector_bytes ∧ (o - offset) % 4 = 0 then
          vector.getD ((o - offset) / 4) 0
        else s₁.mem o
      ({ s₁ with mem := mem', count := current_count + 1 }, .ok current_count)

/-- `storage.rs::Storage::get_vector_slice`. Bounds-checks the index against
`count` and the byte range against the mapping length, then reads the `dims`
f32 words starting at `HEADER_SIZE + index * dims * 4`. -/
def Storage.get_vector_slice (s : Storage) (index : Nat) : Except String (List Nat) :=
  if s.count ≤ index then .error "Index out of bounds"
  else
    let vector_bytes := s.dims * 4
    let offset := HEADER_SIZE + index * vector_bytes
    let end_offset := offset + vector_bytes
    if s.mmapLen < end_offset then .error "Vector extends beyond mmap bounds"
    else .ok ((List.range s.dims).map (fun j => s.mem (offset + 4 * j)))

/-- `storage.rs::Storage::get_vector`: an owned copy of the slice. -/
def Storage.get_vector (s : Storage) (index : Nat) : Except String (List Nat) :=
  s.get_vector_slice index

/-- Modelled from the spec: `Storage::truncate_logical` is called by
`VectorIndex::open` (lib.rs line 165) but its definition is missing from
`storage.rs`. Spec §4.2: "`truncate_logical(n)` — rolls `count` back to `n`
without shrinking the file; used for ghost-node recovery." -/
def Storage.truncate_logical (s : Storage) (n : Nat) : Storage :=
  { s with count := n }

/-- `graph.rs::HnswGraph::find_or_create_graph_start`: the only place the
1 GiB vector-zone ceiling is checked. Fails when the current vector zone end
(`HEADER_SIZE + count * dims * 4`) already exceeds `GRAPH_ZONE_START`. -/
def find_or_create_graph_start (storage : Storage) : Except String Nat :=
  let vector_size := storage.dims * 4
  let vector_zone_current_end := HEADER_SIZE + storage.count * vector_size
  if GRAPH_ZONE_START < vector_zone_current_end then
    .error "Vector storage exceeded 1GB limit"
  else .ok GRAPH_ZONE_START

/-- Consistency / ghost-recovery step of `lib.rs::VectorIndex::open`
(lines 150–166): compare `storage.count` with `graph.node_count`; fail on
corruption (`storage.count < node_count`), otherwise roll the storage count
back with `truncate_logical(node_count)` (a no-op when the counts are equal). -/
def VectorIndex.openReconcile (storage : Storage) (graph_node_count : Nat) :
    Except String Storage :=
  if storage.count < graph_node_count then
    .error "Index corruption detected"
  else
    .ok (storage.truncate_logical graph_node_count)

/-! ### Helper lemmas for the storage layer -/

theorem map_range_getD_eq (v : List Nat) (d : Nat) (hv : v.length = d) :
    (List.range d).map (fun j => v.getD j 0) = v := by
  apply List.ext_getElem
  · simp [hv]
  · intro n h₁ h₂
    simp only [List.getElem_map, List.getElem_range]
    exact List.getD_eq_getElem v 0 h₂

theorem ensure_capacity_grows (s : Storage) (required : Nat) (ioFail : Bool) :
    s.mmapLen ≤ (s.ensure_capacity required ioFail).1.mmapLen ∧
    ((s.ensure_capacity required ioFail).2 = true →
      required ≤ (s.ensure_capacity required ioFail).1.mmapLen) ∧
    ((s.ensure_capacity required ioFail).2 = false →
      (s.ensure_capacity required ioFail).1 = s) ∧
    (s.ensure_capacity required ioFail).1.mem = s.mem ∧
    (s.ensure_capacity required ioFail).1.count = s.count ∧
    (s.ensure_capacity required ioFail).1.dims = s.dims := by
  unfold Storage.ensure_capacity PAGE_SIZE
  split
  · simp_all
  · split
    · simp
    · refine ⟨?_, fun _ => ?_, by simp, rfl, rfl, rfl⟩
      · simp only []
        omega
      · simp only []
        omega

theorem insert_ok_spec (s : Storage) (v : List Nat) (fail : Bool) (s' : Storage) (i : Nat)
    (h : s.insert v fail = (s', .ok i)) :
    v.length = s.dims ∧ i = s.count ∧
    s'.dims = s.dims ∧ s'.count = s.count + 1 ∧
    s.mmapLen ≤ s'.mmapLen ∧
    HEADER_SIZE + s.count * (s.dims * 4) + s.dims * 4 ≤ s'.mmapLen ∧
    (∀ o, o < HEADER_SIZE + s.count * (s.dims * 4) → s'.mem o = s.mem o) ∧
    (∀ j, j < s.dims →
      s'.mem (HEADER_SIZE + s.count * (s.dims * 4) + 4 * j) = v.getD j 0) := by
  unfold Storage.insert at h
  by_cases hlen : v.length = s.dims
  case neg => simp [hlen] at h
  simp only [hlen, ne_eq, not_true_eq_false, if_false, ite_false] at h
  rcases hec : s.ensure_capacity (HEADER_SIZE + s.count * (s.dims * 4) + s.dims * 4) fail
    with ⟨s₁, b⟩
  obtain ⟨hg₁, hg₂, _, hgm, hgc, hgd⟩ := ensure_capacity_grows s
    (HEADER_SIZE + s.count * (s.dims * 4) + s.dims * 4) fail
  rw [hec] at h hg₁ hg₂ hgm hgc hgd
  cases b
  · simp at h
  · simp only [Prod.mk.injEq, Except.ok.injEq] at h
    obtain ⟨hs', hi⟩ := h
    subst hs'
    refine ⟨hlen, hi.symm, hgd, by simp [hgc], hg₁, hg₂ rfl, ?_, ?_⟩
    · intro o ho
      simp only []
      rw [if_neg, hgm]
      omega
    · intro j hj
      simp only []
      rw [if_pos]
      · congr 1
        omega
      · refine ⟨by omega, by omega, by omega⟩

/-- C6: for every vector whose length equals the index dimensions, a
successful `Storage::insert` returning id `i` is read back exactly by
`get_vector(i)`, bit-for-bit. -/
theorem storage_insert_get_vector_roundtrip (s : Storage) (v : List Nat)
    (s' : Storage) (i : Nat) (h : s.insert v false = (s', .ok i)) :
    s'.get_vector i = .ok v := by
  obtain ⟨hlen, hi, hdims, hcount, _, hcap, _, hwrite⟩ := insert_ok_spec s v false s' i h
  unfold Storage.get_vector Storage.get_vector_slice
  rw [if_neg (by omega)]
  simp only []
  rw [if_neg (by rw [hdims, hi]; omega)]
  congr 1
  have hmap : (List.range s'.dims).map
      (fun j => s'.mem (HEADER_SIZE + i * (s'.dims * 4) + 4 * j)) =
      (List.range s'.dims).map (fun j => v.getD j 0) := by
    apply List.map_congr_left
    intro j hj
    rw [List.mem_range] at hj
    rw [hdims] at hj
    have := hwrite j hj
    rw [hdims, hi]
    exact this
  rw [hmap, hdims]
  exact map_range_getD_eq v s.dims hlen

theorem insert_error_spec (s : Storage) (v : List Nat) (fail : Bool) (e : String)
    (h : (s.insert v fail).2 = .error e) : (s.insert v fail).1 = s := by
  unfold Storage.insert at h ⊢
  by_cases hlen : v.length = s.dims
  case neg => simp [hlen]
  by_cases hcap : HEADER_SIZE + s.count * (s.dims * 4) + s.dims * 4 ≤ s.mmapLen
  · simp [Storage.ensure_capacity, hlen, hcap] at h
  · cases fail
    · simp [Storage.ensure_capacity, hlen, hcap] at h
    · simp [Storage.ensure_capacity, hlen, hcap]

/-- C10: `Storage::insert` never modifies a previously stored vector — for
every index `j` below the pre-call count, `get_vector_slice j` is unchanged —
and when it returns an error the whole storage state (count included) is
unchanged. `hwf` is the storage invariant that the mapping covers the vector
zone claimed by `count`. -/
theorem storage_insert_frame (s : Storage) (v : List Nat) (fail : Bool) (j : Nat)
    (hwf : HEADER_SIZE + s.count * (s.dims * 4) ≤ s.mmapLen) (hj : j < s.count) :
    (s.insert v fail).1.get_vector_slice j = s.get_vector_slice j ∧
    (∀ e, (s.insert v fail).2 = .error e → (s.insert v fail).1 = s) := by
  refine ⟨?_, fun e he => insert_error_spec s v fail e he⟩
  rcases h : s.insert v fail with ⟨s', r⟩
  cases r with
  | error e =>
    have h1 : s' = s := by
      have h2 := insert_error_spec s v fail e (by rw [h])
      rw [h] at h2
      exact h2
    simp [h1]
  | ok i =>
    obtain ⟨hlen, hi, hdims, hcount, hmono, hcap, hframe, _⟩ := insert_ok_spec s v fail s' i h
    simp only []
    have hj4 : HEADER_SIZE + j * (s.dims * 4) + s.dims * 4 ≤
        HEADER_SIZE + s.count * (s.dims * 4) := by
      have hj1 : j + 1 ≤ s.count := hj
      calc HEADER_SIZE + j * (s.dims * 4) + s.dims * 4
          = HEADER_SIZE + (j + 1) * (s.dims * 4) := by ring
        _ ≤ HEADER_SIZE + s.count * (s.dims * 4) := by
            exact Nat.add_le_add_left (Nat.mul_le_mul_right _ hj1) _
    unfold Storage.get_vector_slice
    rw [hdims]
    rw [if_neg (show ¬ s'.count ≤ j by omega),
        if_neg (show ¬ s.count ≤ j by omega),
        if_neg (show ¬ s'.mmapLen < HEADER_SIZE + j * (s.dims * 4) + s.dims * 4 by omega),
        if_neg (show ¬ s.mmapLen < HEADER_SIZE + j * (s.dims * 4) + s.dims * 4 by omega)]
    congr 1
    apply List.map_congr_left
    intro x hx
    rw [List.mem_range] at hx
    apply hframe
    omega

/-- C1: the consistency check of `VectorIndex::open`. When the storage count
exceeds the graph node count the storage is logically truncated to the graph
count (ghost reclamation); when it is smaller, open fails with a corruption
error; when they are equal, open succeeds with the storage unchanged. -/
theorem vectorIndex_open_ghost_reconciliation (s : Storage) (g : Nat) :
    (g < s.count → VectorIndex.openReconcile s g = .ok { s with count := g }) ∧
    (s.count < g → VectorIndex.openReconcile s g = .error "Index corruption detected") ∧
    (s.count = g → VectorIndex.openReconcile s g = .ok s) := by
  unfold VectorIndex.openReconcile Storage.truncate_logical
  refine ⟨fun h => ?_, fun h => ?_, fun h => ?_⟩
  · rw [if_neg (by omega)]
  · rw [if_pos h]
  · rw [if_neg (by omega)]
    cases s
    simp_all

def c1storage (c : Nat) : Storage := ⟨4, c, HEADER_SIZE, fun _ => 0⟩

/-- Witness for C1 at concrete inputs covering all three cases. -/
theorem vectorIndex_open_ghost_reconciliation_witness :
    (VectorIndex.openReconcile (c1storage 5) 3 = .ok { c1storage 5 with count := 3 }) ∧
    (VectorIndex.openReconcile (c1storage 2) 3 = .error "Index corruption detected") ∧
    (VectorIndex.openReconcile (c1storage 3) 3 = .ok (c1storage 3)) :=
  ⟨(vectorIndex_open_ghost_reconciliation (c1storage 5) 3).1 (by decide),
   (vectorIndex_open_ghost_reconciliation (c1storage 2) 3).2.1 (by decide),
   (vectorIndex_open_ghost_reconciliation (c1storage 3) 3).2.2 rfl⟩

def c10storage : Storage := ⟨1, 1, 8192, fun _ => 9⟩

/-- Witness for C10 at a concrete storage holding one vector. -/
theorem storage_insert_frame_witness :
    (HEADER_SIZE + c10storage.count * (c10storage.dims * 4) ≤ c10storage.mmapLen ∧
      0 < c10storage.count) ∧
    ((c10storage.insert [5] false).1.get_vector_slice 0 = c10storage.get_vector_slice 0 ∧
     (∀ e, (c10storage.insert [5] false).2 = .error e → (c10storage.insert [5] false).1 = c10storage)) :=
  ⟨⟨by decide, by decide⟩,
   storage_insert_frame c10storage [5] false 0 (by decide) (by decide)⟩

def c6storage : Storage := ⟨2, 0, HEADER_SIZE, fun _ => 0⟩

def c6storageAfter : Storage := (c6storage.insert [5, 7] false).1

/-- Witness for C6: inserting `[5, 7]` into an empty 2-dimensional store
returns id 0 and reads back exactly. -/
theorem storage_insert_get_vector_roundtrip_witness :
    (c6storage.insert [5, 7] false = (c6storageAfter, .ok 0)) ∧
    c6storageAfter.get_vector 0 = .ok [5, 7] :=
  ⟨rfl, storage_insert_get_vector_roundtrip c6storage [5, 7] c6storageAfter 0 rfl⟩

/-- C3 (amended): the 1 GiB vector-zone ceiling is enforced only when the
graph zone is located at open — `find_or_create_graph_start` succeeds exactly
when the current vector zone end is at most 1 GiB — while `Storage::insert`
performs no capacity check at all: with I/O succeeding it succeeds exactly
when the vector length matches the dimensions, wherever the zone end lands. -/
theorem vector_zone_cap_enforced_at_open_only (s : Storage) (v : List Nat) :
    (find_or_create_graph_start s = .ok GRAPH_ZONE_START ↔
      HEADER_SIZE + s.count * (s.dims * 4) ≤ GRAPH_ZONE_START) ∧
    ((s.insert v false).2 = .ok s.count ↔ v.length = s.dims) := by
  constructor
  · unfold find_or_create_graph_start
    by_cases hc : GRAPH_ZONE_START < HEADER_SIZE + s.count * (s.dims * 4)
    · simp only [hc, if_true]
      constructor
      · intro h
        simp at h
      · intro h
        omega
    · simp only [hc, if_false]
      constructor
      · intro _
        omega
      · intro _
        trivial
  · constructor
    · intro h
      rcases he : s.insert v false with ⟨s', r⟩
      rw [he] at h
      cases r with
      | error e => simp at h
      | ok i =>
        obtain ⟨hlen, _, _, _, _, _, _, _⟩ := insert_ok_spec s v false s' i he
        exact hlen
    · intro hlen
      unfold Storage.insert
      by_cases hcap : HEADER_SIZE + s.count * (s.dims * 4) + s.dims * 4 ≤ s.mmapLen
      · simp [Storage.ensure_capacity, hlen, hcap]
      · simp [Storage.ensure_capacity, hlen, hcap]

def c3storage : Storage := ⟨1, 268434432, 1073741824, fun _ => 0⟩

/-- Counterexample for C3 as stated: at a storage whose vector zone ends
exactly at the 1 GiB boundary, inserting one more vector makes the zone cross
1 GiB, yet `insert` succeeds (no `CapacityExceeded` is ever produced by it)
and the vector is stored (`count` advances). -/
theorem vector_zone_cap_counterexample :
    (c3storage.insert [0] false).2 = .ok 268434432 ∧
    (c3storage.insert [0] false).1.count = 268434433 ∧
    HEADER_SIZE + 268434432 * (1 * 4) ≤ GRAPH_ZONE_START ∧
    GRAPH_ZONE_START < HEADER_SIZE + 268434433 * (1 * 4) := by
  refine ⟨?_, ?_, by decide, by decide⟩
  · rfl
  · rfl

/-! ### Node record codec (`hnsw/node.rs`) -/

/-- Sentinel marking an empty neighbor slot; `node.rs::INVALID_NODE_ID` is
`u64::MAX`. -/
def INVALID_NODE_ID : Nat := 2 ^ 64 - 1

/-- `node.rs::NodeRecordParams` (`m` and `m0` are u16 fields, `max_layers`
is a u8 field, hence below 256 in any real state). -/
structure NodeRecordParams where
  m : Nat
  m0 : Nat
  max_layers : Nat
deriving DecidableEq

/-- `node.rs::NodeRecordParams::max_neighbors`. -/
def NodeRecordParams.max_neighbors (p : NodeRecordParams) (layer : Nat) : Nat :=
  if layer = 0 then p.m0 else p.m

/-- Start slot index of a layer's neighbor segment inside the flattened slot
array; the `start` of `node.rs::NodeRecord::layer_slice_bounds`. -/
def NodeRecordParams.layer_start (p : NodeRecordParams) (layer : Nat) : Nat :=
  if layer = 0 then 0 else p.m0 + (layer - 1) * p.m

/-- Model of `node.rs::NodeRecord`. `slots` is the flattened neighbor array
(`[layer0…][layer1…]…`) indexed by slot number; only indices below the total
slot count are meaningful. The on-disk bytes do not store `params`; the field
mirrors the `params` member of the in-memory Rust struct. -/
structure NodeRec where
  node_id : Nat
  layer_count : Nat
  flags : Nat
  params : NodeRecordParams
  slots : Nat → Nat

/-- `node.rs::NodeRecord::new`: every slot holds the sentinel. -/
def NodeRec.new (node_id layer_count : Nat) (params : NodeRecordParams) : NodeRec :=
  ⟨node_id, layer_count, 0, params, fun _ => INVALID_NODE_ID⟩

/-- `node.rs::NodeRecord::get_neighbors`: the valid neighbors of a layer in
slot order, excluding the sentinel; empty for layers at or above
`layer_count`. -/
def NodeRec.get_neighbors (r : NodeRec) (layer : Nat) : List Nat :=
  if r.layer_count ≤ layer then []
  else
    ((List.range (r.params.max_neighbors layer)).map
        (fun j => r.slots (r.params.layer_start layer + j))).filter
      (fun id => decide (id ≠ INVALID_NODE_ID))

/-- `node.rs::NodeRecord::set_neighbors`: clears the layer segment to the
sentinel, then writes the new neighbors at its start. The source `assert!`s
on an out-of-range layer or an overfull list; those panics are modelled as
errors. -/
def NodeRec.set_neighbors (r : NodeRec) (layer : Nat) (neighbors : List Nat) :
    Except String NodeRec :=
  if r.params.max_layers ≤ layer then .error "Layer exceeds max_layers"
  else if r.params.max_neighbors layer < neighbors.length then .error "Too many neighbors"
  else
    .ok { r with slots := fun i =>
      if r.params.layer_start layer ≤ i ∧
          i < r.params.layer_start layer + r.params.max_neighbors layer then
        if i - r.params.layer_start layer < neighbors.length then
          neighbors.getD (i - r.params.layer_start layer) INVALID_NODE_ID
        else INVALID_NODE_ID
      else r.slots i }

/-- `node.rs::NodeRecord::add_neighbor`: fill the first sentinel slot of the
layer, returning whether a free slot existed (`false` also on an out-of-range
layer, as in the source). -/
def NodeRec.add_neighbor (r : NodeRec) (layer : Nat) (neighbor : Nat) : Bool × NodeRec :=
  if r.params.max_layers ≤ layer then (false, r)
  else
    match (List.range (r.params.max_neighbors layer)).find?
        (fun j => decide (r.slots (r.params.layer_start layer + j) = INVALID_NODE_ID)) with
    | some j => (true,
        { r with slots := fun i =>
            if i = r.params.layer_start layer + j then neighbor else r.slots i })
    | none => (false, r)

/-! ### Graph header handling at open (`hnsw/graph.rs`) -/

/-- Parsed view of the 64-byte graph header (`graph.rs::GraphHeader`).
`magic_ok` models whether the stored magic bytes equal `b"HNSW"`; a fresh
(zeroed) graph zone parses as a header with `magic_ok = false`, so
`GraphHeader::from_bytes` itself always succeeds on a 64-byte zone. -/
structure GHeader where
  magic_ok : Bool
  version : Nat
  entry_point : Nat
  node_count : Nat
  max_layer : Nat
  m : Nat
  m0 : Nat
  max_layers : Nat
deriving DecidableEq

/-- `graph.rs::GraphHeader::is_valid`. -/
def GHeader.is_valid (h : GHeader) : Bool := h.magic_ok && h.version == 1

/-- `graph.rs::GraphHeader::new`. -/
def GHeader.new (p : NodeRecordParams) : GHeader :=
  ⟨true, 1, INVALID_NODE_ID, 0, 0, p.m, p.m0, p.max_layers⟩

/-- `graph.rs::GraphHeader::to_record_params`. -/
def GHeader.to_record_params (h : GHeader) : NodeRecordParams :=
  ⟨h.m, h.m0, h.max_layers⟩

/-- `graph.rs::HnswGraph::try_read_graph_header`: magic/version validation
followed by the parameter-match check. -/
def try_read_graph_header (zone : GHeader) (expected_params : NodeRecordParams) :
    Except String GHeader :=
  if ¬ zone.is_valid then .error "Invalid graph header magic or version"
  else if zone.to_record_params ≠ expected_params then .error "Graph header params mismatch"
  else .ok zone

/-- Header-handling step of `graph.rs::HnswGraph::open` (lines 196–216): on a
readable header, adopt it; on any `try_read_graph_header` error — including a
parameter mismatch — write a fresh header into the zone and start with an
empty graph. Returns the zone content after open together with the adopted
`(entry_point, max_layer, node_count)`. -/
def hnswGraph_open_header (zone : GHeader) (record_params : NodeRecordParams) :
    GHeader × (Option Nat × Nat × Nat) :=
  match try_read_graph_header zone record_params with
  | .ok header =>
    (zone,
      ((if header.entry_point = INVALID_NODE_ID then none else some header.entry_point),
       header.max_layer, header.node_count))
  | .error _ => (GHeader.new record_params, (none, 0, 0))

/-! ### Graph state, linking and neighbor selection (`hnsw/graph.rs`, `hnsw/link.rs`)

The graph zone past the header is modelled as a map from node ids to the
node records written there (`none` for never-written slots, whose zeroed
bytes fail header validation on read). `dist` is the distance oracle
abstracting `euclidean_distance` over `get_vector_slice` pairs; because the
Euclidean kernel is symmetric, the lazily memoized symmetric 33×33 cache of
`link.rs` computes exactly the same values as calling the oracle directly,
so the cache needs no separate model. -/

structure GraphState where
  params : NodeRecordParams
  records : Nat → Option NodeRec
  node_count : Nat
  entry_point : Option Nat
  max_layer : Nat
  dist : Nat → Nat → Rat

/-- `graph.rs::HnswGraph::read_node_record`: read the bytes at the node's
offset and deserialize them with the graph's `record_params`
(`NodeRecord::from_bytes` validates `layer_count ≠ 0` and a non-sentinel
`node_id`). -/
def GraphState.read_node_record (g : GraphState) (id : Nat) : Except String NodeRec :=
  match g.records id with
  | none => .error "Failed to read node record"
  | some r =>
    if r.layer_count = 0 then .error "layer_count cannot be 0"
    else if r.node_id = INVALID_NODE_ID then .error "node_id is the sentinel"
    else .ok { r with params := g.params }

/-- `graph.rs::HnswGraph::write_node_record`: serialize the record at the
offset of its own `node_id` (capacity growth always succeeds in the model). -/
def GraphState.write_node_record (g : GraphState) (r : NodeRec) : GraphState :=
  { g with records := fun i => if i = r.node_id then some r else g.records i }

/-- `graph.rs::HnswGraph::update_node_record`: refuse to touch an unpublished
node (`node_id ≥ node_count`), otherwise write in place. -/
def GraphState.update_node_record (g : GraphState) (r : NodeRec) :
    Except String GraphState :=
  if g.node_count ≤ r.node_id then .error "Cannot update non-existent node"
  else .ok (g.write_node_record r)

/-- `link.rs::SelectionResult`. -/
structure SelectionResult where
  selected : List Nat
  includes_new_node : Bool

/-- Base-distance tuples `(id, dist(base, id), idx)` over the candidate set
`current_neighbors ++ [new_node]`, sorted ascending by distance
(`link.rs` lines 279–326). The stable
`sort_by(partial_cmp(..).unwrap_or(Equal))` over f32 is modelled by the
stable `insertionSort` over `ℚ`. -/
def selection_sorted (g : GraphState) (base_node : Nat)
    (current_neighbors : List Nat) (new_node : Nat) : List (Nat × Rat × Nat) :=
  let candidates := current_neighbors ++ [new_node]
  let distances := candidates.enum.map (fun p => (p.2, g.dist base_node p.2, p.1))
  distances.insertionSort (fun a b => a.2.1 ≤ b.2.1)

/-- Diversity phase — HNSW Heuristic 2 — of `select_diverse_neighbors_cached`
(`link.rs` lines 328–361): scan candidates in ascending base distance and
accept one iff no already-selected candidate is strictly closer to it than
the base is, stopping once `max_count` are selected. -/
def diversity_phase (dist : Nat → Nat → Rat) (sorted : List (Nat × Rat × Nat))
    (max_count : Nat) : List Nat :=
  sorted.foldl (fun selected cand =>
    if max_count ≤ selected.length then selected
    else if selected.all (fun s => decide (¬ dist cand.1 s < cand.2.1)) then
      selected ++ [cand.1]
    else selected) []

/-- Starvation fallback of `select_diverse_neighbors_cached` (`link.rs`
lines 365–377): append remaining candidates in ascending base distance,
skipping ids already selected, until `max_count` entries are reached. -/
def starvation_fill (sorted : List (Nat × Rat × Nat)) (max_count : Nat)
    (selected₀ : List Nat) : List Nat :=
  sorted.foldl (fun sel cand =>
    if max_count ≤ sel.length then sel
    else if cand.1 ∈ sel then sel
    else sel ++ [cand.1]) selected₀

/-- Connectivity guarantee of `select_diverse_neighbors_cached` (`link.rs`
lines 379–391): if the priority node was not selected by the diversity phase
(`includes_new`), the selection is not full, and the priority node ranks
among the `max_count` closest candidates, insert it (the `pop()` of a full
selection is unreachable inside the `selected.len() < max_count` branch but
kept as in the source). -/
def connectivity_adjust (sorted : List (Nat × Rat × Nat)) (max_count new_node : Nat)
    (includes_new : Bool) (selected : List Nat) : List Nat :=
  if includes_new = false ∧ selected.length < max_count then
    match sorted.findIdx? (fun cand => decide (cand.1 = new_node)) with
    | some pos =>
      if pos < max_count then
        if new_node ∈ selected then selected
        else
          (if max_count ≤ selected.length then selected.dropLast else selected)
            ++ [new_node]
      else selected
    | none => selected
  else selected

/-- `link.rs::HnswGraph::select_diverse_neighbors_cached`: diversity phase,
starvation fallback (triggered below `max_count / 2`), then the connectivity
guarantee for the priority node `new_node`. -/
def GraphState.select_diverse_neighbors_cached (g : GraphState) (base_node : Nat)
    (current_neighbors : List Nat) (new_node : Nat) (max_count : Nat) :
    SelectionResult :=
  let sorted := selection_sorted g base_node current_neighbors new_node
  let selected := diversity_phase g.dist sorted max_count
  let includes_new := decide (new_node ∈ selected)
  let min_neighbors := max_count / 2
  let selected :=
    if selected.length < min_neighbors then starvation_fill sorted max_count selected
    else selected
  let selected := connectivity_adjust sorted max_count new_node includes_new selected
  { selected := selected, includes_new_node := new_node ∈ selected }

/-- `link.rs::HnswGraph::add_backward_link_with_pruning`: no-op when the
back-link already exists; append when the layer has room; otherwise re-select
the layer's neighbors with the diversity heuristic over the existing
neighbors plus `new_node`. -/
def GraphState.add_backward_link_with_pruning (g : GraphState)
    (neighbor_id new_node layer : Nat) : Except String GraphState := do
  let record ← g.read_node_record neighbor_id
  let current_neighbors := record.get_neighbors layer
  if new_node ∈ current_neighbors then
    return g
  else
    let max_neighbors := g.params.max_neighbors layer
    if current_neighbors.length < max_neighbors then
      g.update_node_record (record.add_neighbor layer new_node).2
    else
      let sel := g.select_diverse_neighbors_cached neighbor_id current_neighbors
        new_node max_neighbors
      let record ← record.set_neighbors layer sel.selected
      g.update_node_record record

/-- Sequentially write the per-layer neighbor lists into a record; the
`for (layer, neighbors) in filtered_neighbors.iter().enumerate()` loop of
`link.rs` lines 179–181. -/
def NodeRec.set_layers (r : NodeRec) (ls : List (List Nat)) : Except String NodeRec :=
  ls.enum.foldlM (fun rec p => rec.set_neighbors p.1 p.2) r

/-- Per-layer neighbor filter of `link.rs` lines 161–174: drop self-links,
the sentinel, and ids of not-yet-existing nodes (Model A). -/
def filtered_forward (node_id node_count : Nat) (npl : List (List Nat)) :
    List (List Nat) :=
  npl.map (fun layer_neighbors =>
    layer_neighbors.filter (fun id =>
      decide (id ≠ node_id ∧ id ≠ INVALID_NODE_ID ∧ id < node_count)))

/-- Backward-link loops of `link.rs` lines 189–200: for each layer, for each
filtered neighbor, skip ids at or past the (already bumped) node count, else
update the neighbor's back-link. -/
def backlinks_pass (node_id : Nat) (lls : List (Nat × List Nat))
    (g₀ : GraphState) : Except String GraphState :=
  lls.foldlM (fun gacc p =>
    p.2.foldlM (fun gacc2 neighbor_id =>
      if gacc2.node_count ≤ neighbor_id then pure gacc2
      else gacc2.add_backward_link_with_pruning neighbor_id node_id p.1) gacc) g₀

/-- Step A of `link_node_bidirectional` (`link.rs` lines 177–186): write the
new node's record first, then increment `node_count` (crash safety). -/
def write_and_bump (g : GraphState) (node_record : NodeRec) : GraphState :=
  let g₁ := g.write_node_record node_record
  { g₁ with node_count := g₁.node_count + 1 }

/-- `link.rs::HnswGraph::link_node_bidirectional`: id-invariant and layer
checks, per-layer neighbor filtering (no self-links, no sentinel, only
already-existing nodes), forward record write, node-count publish, backward
links, and the entry-point/max-layer header update. `layer_count as u8` is
the source's cast (hence `% 256`); `layer_count - 1` is truncated
subtraction, as every real call has `layer_count ≥ 1`. -/
def GraphState.link_node_bidirectional (g : GraphState) (node_id layer_count : Nat)
    (neighbors_per_layer : List (List Nat)) : Except String GraphState :=
  if node_id ≠ g.node_count then .error "Node ID invariant violated"
  else if neighbors_per_layer.length ≠ layer_count then .error "Layer count mismatch"
  else
    ((NodeRec.new node_id (layer_count % 256) g.params).set_layers
        (filtered_forward node_id g.node_count neighbors_per_layer)).bind
      (fun node_record =>
        (backlinks_pass node_id
            (filtered_forward node_id g.node_count neighbors_per_layer).enum
            (write_and_bump g node_record)).bind
          (fun g₃ =>
            if g₃.entry_point = none ∨ g₃.max_layer < layer_count - 1 then
              .ok { g₃ with entry_point := some node_id, max_layer := layer_count - 1 }
            else .ok g₃))

/-! ### C2: parameter mismatch at graph open -/

def c2stored : GHeader := ⟨true, 1, 3, 7, 2, 8, 16, 4⟩

def c2params : NodeRecordParams := ⟨16, 32, 16⟩

/-- C2: a valid stored graph header whose `(M, M0, max_layers)` differ from
the requested parameters. `try_read_graph_header` flags the mismatch as an
error, but `HnswGraph::open` catches every error in its `Err(_)` arm and
silently writes a fresh header: open succeeds and the existing header (entry
point 3, node count 7, max layer 2) is overwritten with an empty one —
contradicting the specified refusal. -/
theorem graph_open_param_mismatch_reinitializes :
    c2stored.is_valid = true ∧
    try_read_graph_header c2stored c2params = .error "Graph header params mismatch" ∧
    hnswGraph_open_header c2stored c2params = (GHeader.new c2params, (none, 0, 0)) ∧
    (GHeader.new c2params).node_count = 0 ∧
    GHeader.new c2params ≠ c2stored := by
  refine ⟨rfl, rfl, rfl, rfl, by decide⟩

/-! ### C4: capacity bound and starvation fallback of the selection heuristic -/

theorem foldl_invariant {α : Type u} {β : Type v} (P : β → Prop) (f : β → α → β)
    (l : List α) (b : β) (hb : P b) (hf : ∀ b a, a ∈ l → P b → P (f b a)) :
    P (l.foldl f b) := by
  induction l generalizing b with
  | nil => exact hb
  | cons x xs ih =>
    exact ih (f b x) (hf b x (by simp) hb) (fun b a ha hb => hf b a (by simp [ha]) hb)

theorem diversity_phase_go_length_le (dist : Nat → Nat → Rat)
    (sorted : List (Nat × Rat × Nat)) (max_count : Nat) (sel₀ : List Nat)
    (h : sel₀.length ≤ max_count) :
    (sorted.foldl (fun selected cand =>
      if max_count ≤ selected.length then selected
      else if selected.all (fun s => decide (¬ dist cand.1 s < cand.2.1)) then
        selected ++ [cand.1]
      else selected) sel₀).length ≤ max_count := by
  induction sorted generalizing sel₀ with
  | nil => simpa using h
  | cons c cs ih =>
    simp only [List.foldl_cons]
    apply ih
    split
    · exact h
    · split
      · simp only [List.length_append, List.length_singleton]
        omega
      · exact h

theorem diversity_phase_length_le (dist : Nat → Nat → Rat)
    (sorted : List (Nat × Rat × Nat)) (max_count : Nat) :
    (diversity_phase dist sorted max_count).length ≤ max_count :=
  diversity_phase_go_length_le dist sorted max_count [] (by simp)

theorem starvation_fill_length_le (sorted : List (Nat × Rat × Nat)) (max_count : Nat)
    (sel₀ : List Nat) (h : sel₀.length ≤ max_count) :
    (starvation_fill sorted max_count sel₀).length ≤ max_count := by
  unfold starvation_fill
  induction sorted generalizing sel₀ with
  | nil => simpa using h
  | cons c cs ih =>
    simp only [List.foldl_cons]
    apply ih
    split
    · exact h
    · split
      · exact h
      · simp only [List.length_append, List.length_singleton]
        omega

theorem starvation_fill_length_mono (sorted : List (Nat × Rat × Nat)) (max_count : Nat)
    (sel₀ : List Nat) :
    sel₀.length ≤ (starvation_fill sorted max_count sel₀).length := by
  unfold starvation_fill
  induction sorted generalizing sel₀ with
  | nil => simp
  | cons c cs ih =>
    simp only [List.foldl_cons]
    calc sel₀.length ≤ (if max_count ≤ sel₀.length then sel₀
        else if c.1 ∈ sel₀ then sel₀ else sel₀ ++ [c.1]).length := by
          split
          · exact le_rfl
          · split
            · exact le_rfl
            · simp
      _ ≤ _ := ih _

theorem starvation_fill_covers (sorted : List (Nat × Rat × Nat)) (max_count : Nat)
    (sel₀ : List Nat) :
    (∀ x ∈ sel₀, x ∈ starvation_fill sorted max_count sel₀) ∧
    (∀ c ∈ sorted, c.1 ∈ starvation_fill sorted max_count sel₀ ∨
      max_count ≤ (starvation_fill sorted max_count sel₀).length) := by
  induction sorted generalizing sel₀ with
  | nil => exact ⟨fun x hx => hx, by simp⟩
  | cons c cs ih =>
    have hstep : starvation_fill (c :: cs) max_count sel₀ =
        starvation_fill cs max_count
          (if max_count ≤ sel₀.length then sel₀
           else if c.1 ∈ sel₀ then sel₀ else sel₀ ++ [c.1]) := by
      unfold starvation_fill
      simp [List.foldl_cons]
    set sel₁ := (if max_count ≤ sel₀.length then sel₀
                 else if c.1 ∈ sel₀ then sel₀ else sel₀ ++ [c.1]) with hsel₁
    have hsub : ∀ x ∈ sel₀, x ∈ sel₁ := by
      intro x hx
      rw [hsel₁]
      split
      · exact hx
      · split
        · exact hx
        · simp [hx]
    have hlen₁ : sel₀.length ≤ sel₁.length := by
      rw [hsel₁]
      split
      · exact le_rfl
      · split
        · exact le_rfl
        · simp
    obtain ⟨ih1, ih2⟩ := ih sel₁
    rw [hstep]
    refine ⟨fun x hx => ih1 x (hsub x hx), ?_⟩
    intro d hd
    rcases List.mem_cons.1 hd with rfl | hd₂
    · by_cases h1 : max_count ≤ sel₀.length
      · right
        calc max_count ≤ sel₀.length := h1
          _ ≤ sel₁.length := hlen₁
          _ ≤ _ := starvation_fill_length_mono cs max_count sel₁
      · left
        apply ih1
        rw [hsel₁]
        rw [if_neg h1]
        split
        · assumption
        · simp
    · exact ih2 d hd₂

theorem connectivity_adjust_length_le (sorted : List (Nat × Rat × Nat))
    (max_count new_node : Nat) (includes_new : Bool) (selected : List Nat)
    (h : selected.length ≤ max_count) :
    (connectivity_adjust sorted max_count new_node includes_new selected).length
      ≤ max_count := by
  unfold connectivity_adjust
  split
  case isFalse => exact h
  case isTrue hcond =>
    rcases hcond with ⟨_, hlt⟩
    split
    case h_2 => exact h
    case h_1 pos hfi =>
      split
      · split
        · exact h
        · rw [if_neg (by omega)]
          simp only [List.length_append, List.length_singleton]
          omega
      · exact h

theorem connectivity_adjust_length_mono (sorted : List (Nat × Rat × Nat))
    (max_count new_node : Nat) (includes_new : Bool) (selected : List Nat) :
    selected.length ≤
      (connectivity_adjust sorted max_count new_node includes_new selected).length := by
  unfold connectivity_adjust
  split
  case isFalse => exact le_rfl
  case isTrue hcond =>
    rcases hcond with ⟨_, hlt⟩
    split
    case h_2 => exact le_rfl
    case h_1 pos hfi =>
      split
      · split
        · exact le_rfl
        · rw [if_neg (by omega)]
          simp
      · exact le_rfl

theorem connectivity_adjust_mem_mono (sorted : List (Nat × Rat × Nat))
    (max_count new_node : Nat) (includes_new : Bool) (selected : List Nat)
    (x : Nat) (hx : x ∈ selected) :
    x ∈ connectivity_adjust sorted max_count new_node includes_new selected := by
  unfold connectivity_adjust
  split
  case isFalse => exact hx
  case isTrue hcond =>
    rcases hcond with ⟨_, hlt⟩
    split
    case h_2 => exact hx
    case h_1 pos hfi =>
      split
      · split
        · exact hx
        · rw [if_neg (by omega)]
          simp [hx]
      · exact hx

theorem selection_sorted_covers_candidates (g : GraphState) (base_node : Nat)
    (current_neighbors : List Nat) (new_node : Nat) :
    ∀ id ∈ current_neighbors ++ [new_node],
      ∃ c ∈ selection_sorted g base_node current_neighbors new_node, c.1 = id := by
  intro id hid
  simp only [selection_sorted]
  have hperm := List.perm_insertionSort (fun (a b : Nat × Rat × Nat) => a.2.1 ≤ b.2.1)
    ((current_neighbors ++ [new_node]).enum.map
      (fun p => (p.2, g.dist base_node p.2, p.1)))
  have hmem : id ∈ (current_neighbors ++ [new_node]) := hid
  rw [← List.enum_map_snd (current_neighbors ++ [new_node])] at hmem
  obtain ⟨p, hp, hpid⟩ := List.mem_map.1 hmem
  refine ⟨(p.2, g.dist base_node p.2, p.1), ?_, hpid⟩
  rw [hperm.mem_iff]
  exact List.mem_map.2 ⟨p, hp, rfl⟩

/-- C4 (amended): the selection heuristic returns at most `max_count`
neighbors; and whenever the diversity phase has selected fewer than
`max_count / 2` candidates, the starvation fallback appends the remaining
closest candidates (skipping duplicates) until the selection reaches
`max_count` — not `max_count / 2` — or the candidates are exhausted, so the
final selection has at least `min(max_count, #distinct candidates)` entries. -/
theorem select_diverse_capacity_and_starvation (g : GraphState) (base_node : Nat)
    (current_neighbors : List Nat) (new_node : Nat) (max_count : Nat) :
    (g.select_diverse_neighbors_cached base_node current_neighbors new_node
        max_count).selected.length ≤ max_count ∧
    ((diversity_phase g.dist
        (selection_sorted g base_node current_neighbors new_node) max_count).length
          < max_count / 2 →
      min max_count (current_neighbors ++ [new_node]).toFinset.card ≤
        (g.select_diverse_neighbors_cached base_node current_neighbors new_node
          max_count).selected.length) := by
  have hdiv := diversity_phase_length_le g.dist
    (selection_sorted g base_node current_neighbors new_node) max_count
  constructor
  · unfold GraphState.select_diverse_neighbors_cached
    simp only []
    apply connectivity_adjust_length_le
    split
    · exact starvation_fill_length_le _ _ _ hdiv
    · exact hdiv
  · intro hstarv
    unfold GraphState.select_diverse_neighbors_cached
    simp only []
    rw [if_pos hstarv]
    set sorted := selection_sorted g base_node current_neighbors new_node with hsorted
    set div := diversity_phase g.dist sorted max_count with hdivdef
    set fill := starvation_fill sorted max_count div with hfilldef
    set final := connectivity_adjust sorted max_count new_node
      (decide (new_node ∈ div)) fill with hfinal
    by_cases hfull : max_count ≤ fill.length
    · calc min max_count (current_neighbors ++ [new_node]).toFinset.card
          ≤ max_count := min_le_left _ _
        _ ≤ fill.length := hfull
        _ ≤ final.length := connectivity_adjust_length_mono _ _ _ _ _
    · have hcov := starvation_fill_covers sorted max_count div
      have hall : ∀ id ∈ current_neighbors ++ [new_node], id ∈ final := by
        intro id hid
        obtain ⟨c, hc, hcid⟩ :=
          selection_sorted_covers_candidates g base_node current_neighbors new_node id hid
        rcases hcov.2 c hc with hin | hlen
        · exact connectivity_adjust_mem_mono _ _ _ _ _ _ (hcid ▸ hin)
        · exact absurd hlen hfull
      have hsubset : (current_neighbors ++ [new_node]).toFinset ⊆ final.toFinset := by
        intro x hx
        rw [List.mem_toFinset] at hx ⊢
        exact hall x hx
      calc min max_count (current_neighbors ++ [new_node]).toFinset.card
          ≤ (current_neighbors ++ [new_node]).toFinset.card := min_le_right _ _
        _ ≤ final.toFinset.card := Finset.card_le_card hsubset
        _ ≤ final.length := List.toFinset_card_le _

def c4dist : Nat → Nat → Rat := fun i j =>
  match i, j with
  | 0, 1 => 1 | 1, 0 => 1
  | 0, 2 => 2 | 2, 0 => 2
  | 0, 3 => 3 | 3, 0 => 3
  | 0, 4 => 4 | 4, 0 => 4
  | 1, 2 => 1 | 2, 1 => 1
  | 1, 3 => 2 | 3, 1 => 2
  | 1, 4 => 3 | 4, 1 => 3
  | 2, 3 => 1 | 3, 2 => 1
  | 2, 4 => 2 | 4, 2 => 2
  | 3, 4 => 1 | 4, 3 => 1
  | _, _ => 0

def c4graph : GraphState := ⟨⟨2, 4, 2⟩, fun _ => none, 5, none, 0, c4dist⟩

/-- Counterexample for C4 as stated: five collinear points (distances as in
`c4dist`), base 0, candidates 1, 2, 3, 4, `max_count = 4`. The diversity
phase selects only `[1]` (fewer than `max_count / 2 = 2`), and the starvation
fallback then fills the selection to the full `max_count = 4` entries — not
to `max_count / 2 = 2` as claimed. -/
theorem select_diverse_starvation_counterexample :
    (diversity_phase c4graph.dist (selection_sorted c4graph 0 [1, 2, 3] 4) 4).length
        < 4 / 2 ∧
    ¬ ((c4graph.select_diverse_neighbors_cached 0 [1, 2, 3] 4 4).selected.length
        ≤ 4 / 2) := by
  constructor
  · decide
  · decide

/-- Witness for the amended C4 at the counterexample input. -/
theorem select_diverse_capacity_and_starvation_witness :
    (diversity_phase c4graph.dist (selection_sorted c4graph 0 [1, 2, 3] 4) 4).length
        < 4 / 2 ∧
    min 4 ([1, 2, 3] ++ [4] : List Nat).toFinset.card ≤
      (c4graph.select_diverse_neighbors_cached 0 [1, 2, 3] 4 4).selected.length :=
  ⟨by decide,
   (select_diverse_capacity_and_starvation c4graph 0 [1, 2, 3] 4 4).2 (by decide)⟩

/-! ### C8: retry behavior of the backward-link update -/

theorem add_backward_link_noop_of_present (g : GraphState) (n x l : Nat) (r : NodeRec)
    (hread : g.read_node_record n = .ok r) (hmem : x ∈ r.get_neighbors l) :
    g.add_backward_link_with_pruning n x l = .ok g := by
  unfold GraphState.add_backward_link_with_pruning
  rw [hread]
  simp only [bind, Except.bind]
  rw [if_pos hmem]
  rfl

/-- C8 (amended): `add_backward_link_with_pruning(n, x, l)` retried once is a
no-op — the two-call state equals the one-call state — whenever the first
call leaves `x` present in layer `l` of node `n`'s record, which is always
the case when the layer had free capacity or already contained `x`. (When the
layer is full and the diversity heuristic prunes `x` away, a second call can
insert `x` into the now-shorter layer, so unconditional idempotency fails.) -/
theorem add_backward_link_idempotent_when_present (g g₁ : GraphState) (n x l : Nat)
    (_h1 : g.add_backward_link_with_pruning n x l = .ok g₁) (r : NodeRec)
    (hread : g₁.read_node_record n = .ok r) (hmem : x ∈ r.get_neighbors l) :
    g₁.add_backward_link_with_pruning n x l = .ok g₁ :=
  add_backward_link_noop_of_present g₁ n x l r hread hmem

def c8dist : Nat → Nat → Rat := fun i j =>
  match i, j with
  | 0, 1 => 1 | 1, 0 => 1
  | 0, 2 => 2 | 2, 0 => 2
  | 0, 3 => 4 | 3, 0 => 4
  | 1, 2 => 1 | 2, 1 => 1
  | 1, 3 => 3 | 3, 1 => 3
  | 2, 3 => 2 | 3, 2 => 2
  | _, _ => 0

def c8rec : NodeRec :=
  ⟨0, 1, 0, ⟨1, 2, 1⟩,
   fun i => if i = 0 then 1 else if i = 1 then 2 else INVALID_NODE_ID⟩

def c8graph : GraphState :=
  ⟨⟨1, 2, 1⟩, fun i => if i = 0 then some c8rec else none, 4, some 0, 0, c8dist⟩

/-- Layer-0 neighbor list of node 0 after a call sequence, `none` on error. -/
def c8obs (e : Except String GraphState) : Option (List Nat) :=
  match e with
  | .ok g =>
    match g.records 0 with
    | some r => some (r.get_neighbors 0)
    | none => none
  | .error _ => none

/-- Counterexample for C8 as stated: node 0 (M0 = 2) has a full layer 0
`[1, 2]`; node 3 is the farthest candidate. The first
`add_backward_link_with_pruning(0, 3, 0)` prunes the layer down to `[1]`
without inserting 3 (the connectivity guarantee does not fire because 3 is
not among the 2 closest); the second call finds free capacity and appends 3,
yielding `[1, 3] ≠ [1]`. -/
theorem add_backward_link_not_idempotent_counterexample :
    c8obs (c8graph.add_backward_link_with_pruning 0 3 0) = some [1] ∧
    c8obs ((c8graph.add_backward_link_with_pruning 0 3 0).bind
      (fun g => g.add_backward_link_with_pruning 0 3 0)) = some [1, 3] ∧
    (some [1] : Option (List Nat)) ≠ some [1, 3] := by
  refine ⟨by decide, by decide, by decide⟩

def c8wrec : NodeRec :=
  ⟨0, 1, 0, ⟨1, 2, 1⟩, fun i => if i = 0 then 1 else INVALID_NODE_ID⟩

def c8wgraph : GraphState :=
  ⟨⟨1, 2, 1⟩, fun i => if i = 0 then some c8wrec else none, 4, some 0, 0, c8dist⟩

def c8wg1 : GraphState :=
  ((c8wgraph.add_backward_link_with_pruning 0 2 0).toOption).getD c8wgraph

def c8wr : NodeRec := ((c8wg1.read_node_record 0).toOption).getD c8wrec

/-- Witness for the amended C8: with free capacity the first call inserts the
back-link and the retry is a no-op. -/
theorem add_backward_link_idempotent_when_present_witness :
    (c8wgraph.add_backward_link_with_pruning 0 2 0 = .ok c8wg1) ∧
    (c8wg1.read_node_record 0 = .ok c8wr) ∧
    (2 ∈ c8wr.get_neighbors 0) ∧
    c8wg1.add_backward_link_with_pruning 0 2 0 = .ok c8wg1 :=
  ⟨rfl, rfl, by decide,
   add_backward_link_idempotent_when_present c8wgraph c8wg1 0 2 0 rfl c8wr rfl (by decide)⟩

/-! ### C7: record-level lemmas for the forward write of linking -/

theorem layer_segments_disjoint (p : NodeRecordParams) (l l' : Nat) (h : l < l') :
    p.layer_start l + p.max_neighbors l ≤ p.layer_start l' := by
  unfold NodeRecordParams.layer_start NodeRecordParams.max_neighbors
  rcases l with _ | k
  · rw [if_pos rfl, if_pos rfl, if_neg (by omega)]
    omega
  · rw [if_neg (by omega), if_neg (by omega), if_neg (by omega)]
    simp only [Nat.add_sub_cancel]
    have hm : (k + 1) * p.m ≤ (l' - 1) * p.m :=
      Nat.mul_le_mul_right p.m (by omega)
    have he : (k + 1) * p.m = k * p.m + p.m := by ring
    omega

theorem layer_start_mono (p : NodeRecordParams) (l l' : Nat) (h : l ≤ l') :
    p.layer_start l ≤ p.layer_start l' := by
  rcases Nat.lt_or_ge l l' with hlt | hge
  · have := layer_segments_disjoint p l l' hlt
    omega
  · have : l = l' := by omega
    rw [this]

theorem set_neighbors_ok_spec (r : NodeRec) (layer : Nat) (ns : List Nat) (r' : NodeRec)
    (h : r.set_neighbors layer ns = .ok r') :
    layer < r.params.max_layers ∧ ns.length ≤ r.params.max_neighbors layer ∧
    r'.node_id = r.node_id ∧ r'.layer_count = r.layer_count ∧
    r'.flags = r.flags ∧ r'.params = r.params ∧
    (∀ i, (i < r.params.layer_start layer ∨
           r.params.layer_start layer + r.params.max_neighbors layer ≤ i) →
      r'.slots i = r.slots i) ∧
    (∀ j, j < r.params.max_neighbors layer →
      r'.slots (r.params.layer_start layer + j) =
        if j < ns.length then ns.getD j INVALID_NODE_ID else INVALID_NODE_ID) := by
  unfold NodeRec.set_neighbors at h
  by_cases h1 : r.params.max_layers ≤ layer
  · rw [if_pos h1] at h
    exact absurd h (by simp)
  rw [if_neg h1] at h
  by_cases h2 : r.params.max_neighbors layer < ns.length
  · rw [if_pos h2] at h
    exact absurd h (by simp)
  rw [if_neg h2] at h
  simp only [Except.ok.injEq] at h
  subst h
  refine ⟨by omega, by omega, rfl, rfl, rfl, rfl, ?_, ?_⟩
  · intro i hi
    simp only []
    rw [if_neg (by omega)]
  · intro j hj
    simp only []
    rw [if_pos (by omega)]
    have : r.params.layer_start layer + j - r.params.layer_start layer = j := by omega
    rw [this]

theorem filter_replicate_invalid (k : Nat) :
    (List.replicate k INVALID_NODE_ID).filter
      (fun id => decide (id ≠ INVALID_NODE_ID)) = [] := by
  induction k with
  | zero => rfl
  | succ n ih => simp [List.replicate_succ, List.filter_cons, ih]

theorem get_neighbors_eq_of_slots (r : NodeRec) (layer : Nat) (ns : List Nat)
    (hlay : layer < r.layer_count)
    (hlen : ns.length ≤ r.params.max_neighbors layer)
    (hclean : ∀ x ∈ ns, x ≠ INVALID_NODE_ID)
    (hslots : ∀ j, j < r.params.max_neighbors layer →
      r.slots (r.params.layer_start layer + j) =
        if j < ns.length then ns.getD j INVALID_NODE_ID else INVALID_NODE_ID) :
    r.get_neighbors layer = ns := by
  unfold NodeRec.get_neighbors
  rw [if_neg (by omega)]
  have hmap : (List.range (r.params.max_neighbors layer)).map
      (fun j => r.slots (r.params.layer_start layer + j)) =
      ns ++ List.replicate (r.params.max_neighbors layer - ns.length) INVALID_NODE_ID := by
    apply List.ext_getElem
    · simp
      omega
    · intro n h₁ h₂
      simp only [List.getElem_map, List.getElem_range]
      rw [hslots n (by simpa using h₁)]
      by_cases hn : n < ns.length
      · rw [if_pos hn, List.getElem_append_left hn]
        exact List.getD_eq_getElem ns INVALID_NODE_ID hn
      · rw [if_neg hn, List.getElem_append_right (by omega)]
        simp [List.getElem_replicate]
  rw [hmap, List.filter_append, filter_replicate_invalid]
  rw [List.filter_eq_self.2 (fun a ha => decide_eq_true (hclean a ha))]
  simp

theorem set_layers_go_spec (ls : List (List Nat)) (i₀ : Nat) (r₀ r' : NodeRec)
    (h : (List.enumFrom i₀ ls).foldlM
      (fun rec p => rec.set_neighbors p.1 p.2) r₀ = .ok r') :
    r'.node_id = r₀.node_id ∧ r'.layer_count = r₀.layer_count ∧
    r'.params = r₀.params ∧
    (∀ i, i < r₀.params.layer_start i₀ → r'.slots i = r₀.slots i) ∧
    (∀ k, k < ls.length →
      i₀ + k < r₀.params.max_layers ∧
      (ls.getD k []).length ≤ r₀.params.max_neighbors (i₀ + k) ∧
      (∀ j, j < r₀.params.max_neighbors (i₀ + k) →
        r'.slots (r₀.params.layer_start (i₀ + k) + j) =
          if j < (ls.getD k []).length then (ls.getD k []).getD j INVALID_NODE_ID
          else INVALID_NODE_ID)) := by
  induction ls generalizing i₀ r₀ with
  | nil =>
    rw [show List.enumFrom i₀ ([] : List (List Nat)) = [] from rfl,
      List.foldlM_nil] at h
    simp only [pure, Except.pure, Except.ok.injEq] at h
    subst h
    exact ⟨rfl, rfl, rfl, fun _ _ => rfl, fun k hk => absurd hk (by simp)⟩
  | cons ns tl ih =>
    rw [List.enumFrom_cons, List.foldlM_cons] at h
    rcases hset : r₀.set_neighbors i₀ ns with e | r₁
    · rw [hset] at h
      simp only [bind, Except.bind] at h
      exact absurd h (by simp)
    rw [hset] at h
    simp only [bind, Except.bind] at h
    obtain ⟨hml, hlen, hnid, hlc, _, hpar, hframe, hseg⟩ :=
      set_neighbors_ok_spec r₀ i₀ ns r₁ hset
    obtain ⟨ih1, ih2, ih3, ih4, ih5⟩ := ih (i₀ + 1) r₁ h
    rw [hpar] at ih4 ih5
    refine ⟨ih1.trans hnid, ih2.trans hlc, ih3.trans hpar, ?_, ?_⟩
    · intro i hi
      have hi1 : i < r₀.params.layer_start (i₀ + 1) := by
        have := layer_start_mono r₀.params i₀ (i₀ + 1) (by omega)
        omega
      rw [ih4 i hi1]
      exact hframe i (Or.inl hi)
    · intro k hk
      rcases k with _ | k
      · simp only [Nat.add_zero, List.getD_cons_zero]
        refine ⟨hml, hlen, ?_⟩
        intro j hj
        have hseg_in : r₀.params.layer_start i₀ + j < r₀.params.layer_start (i₀ + 1) := by
          have := layer_segments_disjoint r₀.params i₀ (i₀ + 1) (by omega)
          omega
        rw [ih4 _ hseg_in]
        exact hseg j hj
      · have hk' : k < tl.length := by simpa using hk
        obtain ⟨ha, hb, hc⟩ := ih5 k hk'
        have harith : i₀ + 1 + k = i₀ + (k + 1) := by omega
        rw [harith] at ha hb hc
        exact ⟨ha, by simpa using hb, by simpa using hc⟩

theorem set_layers_ok_spec (r₀ : NodeRec) (ls : List (List Nat)) (r' : NodeRec)
    (h : r₀.set_layers ls = .ok r') :
    r'.node_id = r₀.node_id ∧ r'.layer_count = r₀.layer_count ∧
    r'.params = r₀.params ∧
    (∀ k, k < ls.length →
      k < r₀.params.max_layers ∧
      (ls.getD k []).length ≤ r₀.params.max_neighbors k ∧
      (∀ j, j < r₀.params.max_neighbors k →
        r'.slots (r₀.params.layer_start k + j) =
          if j < (ls.getD k []).length then (ls.getD k []).getD j INVALID_NODE_ID
          else INVALID_NODE_ID)) := by
  unfold NodeRec.set_layers at h
  rw [List.enum_eq_enumFrom] at h
  obtain ⟨h1, h2, h3, _, h5⟩ := set_layers_go_spec ls 0 r₀ r' h
  refine ⟨h1, h2, h3, fun k hk => ?_⟩
  have hx := h5 k hk
  simpa using hx

/-! ### C7: graph-level lemmas for linking -/

/-- Well-formedness of the graph zone: every written record sits at the
offset of its own `node_id`. Every write path of the source addresses the
record by `record.header.node_id`, so this invariant holds in every
reachable state. -/
def RecordsWF (g : GraphState) : Prop :=
  ∀ i r, g.records i = some r → r.node_id = i

theorem read_node_record_ok_spec (g : GraphState) (id : Nat) (r : NodeRec)
    (hwf : RecordsWF g) (h : g.read_node_record id = .ok r) :
    r.node_id = id ∧ r.params = g.params ∧ r.layer_count ≠ 0 := by
  unfold GraphState.read_node_record at h
  split at h
  next => exact absurd h (by simp)
  next r₀ heq =>
    split at h
    next h1 => exact absurd h (by simp)
    next h1 =>
      split at h
      next h2 => exact absurd h (by simp)
      next h2 =>
        simp only [Except.ok.injEq] at h
        subst h
        exact ⟨hwf id r₀ heq, rfl, h1⟩

theorem update_node_record_ok_spec (g : GraphState) (r : NodeRec) (g₁ : GraphState)
    (h : g.update_node_record r = .ok g₁) :
    g₁ = g.write_node_record r ∧ r.node_id < g.node_count := by
  unfold GraphState.update_node_record at h
  by_cases h1 : g.node_count ≤ r.node_id
  · rw [if_pos h1] at h
    exact absurd h (by simp)
  rw [if_neg h1] at h
  simp only [Except.ok.injEq] at h
  exact ⟨h.symm, by omega⟩

theorem add_neighbor_fields (r : NodeRec) (layer x : Nat) :
    ((r.add_neighbor layer x).2).node_id = r.node_id ∧
    ((r.add_neighbor layer x).2).layer_count = r.layer_count ∧
    ((r.add_neighbor layer x).2).params = r.params := by
  unfold NodeRec.add_neighbor
  split
  · exact ⟨rfl, rfl, rfl⟩
  · split
    · exact ⟨rfl, rfl, rfl⟩
    · exact ⟨rfl, rfl, rfl⟩

theorem write_node_record_fields (g : GraphState) (r : NodeRec) :
    (g.write_node_record r).records r.node_id = some r ∧
    (∀ i, i ≠ r.node_id → (g.write_node_record r).records i = g.records i) ∧
    (g.write_node_record r).node_count = g.node_count ∧
    (g.write_node_record r).params = g.params ∧
    (g.write_node_record r).dist = g.dist ∧
    (g.write_node_record r).entry_point = g.entry_point ∧
    (g.write_node_record r).max_layer = g.max_layer := by
  unfold GraphState.write_node_record
  refine ⟨by simp, fun i hi => by simp [hi], rfl, rfl, rfl, rfl, rfl⟩

theorem add_backward_preserves (g : GraphState) (n x l : Nat) (g₁ : GraphState)
    (hwf : RecordsWF g) (h : g.add_backward_link_with_pruning n x l = .ok g₁) :
    (∀ i, i ≠ n → g₁.records i = g.records i) ∧ RecordsWF g₁ ∧
    g₁.node_count = g.node_count ∧ g₁.params = g.params := by
  unfold GraphState.add_backward_link_with_pruning at h
  rcases hrd : g.read_node_record n with e | r
  · rw [hrd] at h
    simp only [bind, Except.bind] at h
    exact absurd h (by simp)
  rw [hrd] at h
  simp only [bind, Except.bind] at h
  obtain ⟨hnid, hpar, _⟩ := read_node_record_ok_spec g n r hwf hrd
  by_cases hmem : x ∈ r.get_neighbors l
  · rw [if_pos hmem] at h
    simp only [pure, Except.pure, Except.ok.injEq] at h
    subst h
    exact ⟨fun _ _ => rfl, hwf, rfl, rfl⟩
  rw [if_neg hmem] at h
  by_cases hlen : (r.get_neighbors l).length < g.params.max_neighbors l
  · rw [if_pos hlen] at h
    obtain ⟨hg₁, _⟩ := update_node_record_ok_spec g _ g₁ h
    obtain ⟨hwr, hfr, hcnt, hpar2, _, _, _⟩ :=
      write_node_record_fields g (r.add_neighbor l x).2
    obtain ⟨haid, _, _⟩ := add_neighbor_fields r l x
    subst hg₁
    refine ⟨fun i hi => hfr i (by rw [haid, hnid]; exact hi), ?_, hcnt, hpar2⟩
    intro i rr hir
    by_cases hin : i = (r.add_neighbor l x).2.node_id
    · subst hin
      rw [hwr] at hir
      simp only [Option.some.injEq] at hir
      subst hir
      rfl
    · rw [hfr i hin] at hir
      exact hwf i rr hir
  · rw [if_neg hlen] at h
    rcases hst : r.set_neighbors l (g.select_diverse_neighbors_cached n
      (r.get_neighbors l) x (g.params.max_neighbors l)).selected with e | r₂
    · rw [hst] at h
      exact absurd h (by simp)
    rw [hst] at h
    obtain ⟨_, _, hsid, _, _, _, _, _⟩ := set_neighbors_ok_spec r l _ r₂ hst
    obtain ⟨hg₁, _⟩ := update_node_record_ok_spec g r₂ g₁ h
    obtain ⟨hwr, hfr, hcnt, hpar2, _, _, _⟩ := write_node_record_fields g r₂
    subst hg₁
    refine ⟨fun i hi => hfr i (by rw [hsid, hnid]; exact hi), ?_, hcnt, hpar2⟩
    intro i rr hir
    by_cases hin : i = r₂.node_id
    · subst hin
      rw [hwr] at hir
      simp only [Option.some.injEq] at hir
      subst hir
      rfl
    · rw [hfr i hin] at hir
      exact hwf i rr hir

theorem backlink_inner_fold_preserves (node_id layer : Nat) (ns : List Nat)
    (g₀ g₁ : GraphState)
    (h : ns.foldlM (fun gacc2 neighbor_id =>
      if gacc2.node_count ≤ neighbor_id then pure gacc2
      else gacc2.add_backward_link_with_pruning neighbor_id node_id layer) g₀ = .ok g₁)
    (hwf : RecordsWF g₀) (hids : ∀ nid ∈ ns, nid ≠ node_id) :
    g₁.records node_id = g₀.records node_id ∧ RecordsWF g₁ ∧
    g₁.node_count = g₀.node_count ∧ g₁.params = g₀.params := by
  induction ns generalizing g₀ with
  | nil =>
    rw [List.foldlM_nil] at h
    simp only [pure, Except.pure, Except.ok.injEq] at h
    subst h
    exact ⟨rfl, hwf, rfl, rfl⟩
  | cons nid tl ih =>
    rw [List.foldlM_cons] at h
    by_cases hc : g₀.node_count ≤ nid
    · rw [if_pos hc] at h
      simp only [pure, Except.pure, bind, Except.bind] at h
      exact ih g₀ h hwf (fun m hm => hids m (by simp [hm]))
    · rw [if_neg hc] at h
      rcases hstep : g₀.add_backward_link_with_pruning nid node_id layer with e | g'
      · rw [hstep] at h
        simp only [bind, Except.bind] at h
        exact absurd h (by simp)
      rw [hstep] at h
      simp only [bind, Except.bind] at h
      obtain ⟨hfr, hwf', hcnt, hpar⟩ :=
        add_backward_preserves g₀ nid node_id layer g' hwf hstep
      obtain ⟨a, b, c, d⟩ := ih g' h hwf' (fun m hm => hids m (by simp [hm]))
      refine ⟨?_, b, c.trans hcnt, d.trans hpar⟩
      rw [a, hfr node_id (Ne.symm (hids nid (by simp)))]

theorem backlinks_pass_preserves (node_id : Nat) (lls : List (Nat × List Nat))
    (g₀ g₃ : GraphState)
    (h : backlinks_pass node_id lls g₀ = .ok g₃)
    (hwf : RecordsWF g₀)
    (hids : ∀ p ∈ lls, ∀ nid ∈ p.2, nid ≠ node_id) :
    g₃.records node_id = g₀.records node_id ∧ RecordsWF g₃ ∧
    g₃.node_count = g₀.node_count ∧ g₃.params = g₀.params := by
  unfold backlinks_pass at h
  induction lls generalizing g₀ with
  | nil =>
    rw [List.foldlM_nil] at h
    simp only [pure, Except.pure, Except.ok.injEq] at h
    subst h
    exact ⟨rfl, hwf, rfl, rfl⟩
  | cons p tl ih =>
    rw [List.foldlM_cons] at h
    rcases hstep : p.2.foldlM (fun gacc2 neighbor_id =>
        if gacc2.node_count ≤ neighbor_id then pure gacc2
        else gacc2.add_backward_link_with_pruning neighbor_id node_id p.1) g₀
      with e | g'
    · rw [hstep] at h
      simp only [bind, Except.bind] at h
      exact absurd h (by simp)
    rw [hstep] at h
    simp only [bind, Except.bind] at h
    obtain ⟨ha, hb, hc, hd⟩ := backlink_inner_fold_preserves node_id p.1 p.2 g₀ g' hstep
      hwf (fun nid hn => hids p (by simp) nid hn)
    obtain ⟨a, b, c, d⟩ := ih g' h hb (fun q hq nid hn => hids q (by simp [hq]) nid hn)
    exact ⟨a.trans ha, b, c.trans hc, d.trans hd⟩

theorem except_bind_ok {α β : Type} (e : Except String α) (f : α → Except String β)
    (b : β) (h : e.bind f = .ok b) : ∃ a, e = .ok a ∧ f a = .ok b := by
  cases e with
  | error err => simp [Except.bind] at h
  | ok a => exact ⟨a, rfl, by simpa [Except.bind] using h⟩

theorem mem_of_mem_enum {α : Type} (l : List α) (p : Nat × α) (hp : p ∈ l.enum) :
    p.2 ∈ l := by
  have hm := List.enum_map_snd l
  rw [← hm]
  exact List.mem_map_of_mem Prod.snd hp

theorem filtered_forward_getD (node_id node_count l : Nat) (npl : List (List Nat))
    (hl : l < npl.length) :
    (filtered_forward node_id node_count npl).getD l [] =
      (npl.getD l []).filter (fun id =>
        decide (id ≠ node_id ∧ id ≠ INVALID_NODE_ID ∧ id < node_count)) := by
  unfold filtered_forward
  rw [List.getD_eq_getElem _ _ (by simpa using hl), List.getElem_map,
    List.getD_eq_getElem _ _ hl]

theorem write_and_bump_fields (g : GraphState) (r : NodeRec) :
    (write_and_bump g r).records r.node_id = some r ∧
    (∀ i, i ≠ r.node_id → (write_and_bump g r).records i = g.records i) ∧
    (write_and_bump g r).node_count = g.node_count + 1 ∧
    (write_and_bump g r).params = g.params := by
  unfold write_and_bump GraphState.write_node_record
  refine ⟨by simp, fun i hi => by simp [hi], rfl, rfl⟩

theorem write_and_bump_wf (g : GraphState) (r : NodeRec) (hwf : RecordsWF g) :
    RecordsWF (write_and_bump g r) := by
  intro i rr hir
  obtain ⟨hown, hfr, _, _⟩ := write_and_bump_fields g r
  by_cases hi : i = r.node_id
  · subst hi
    rw [hown] at hir
    simp only [Option.some.injEq] at hir
    subst hir
    rfl
  · rw [hfr i hi] at hir
    exact hwf i rr hir

/-- C7: a successful `link_node_bidirectional(id, layer_count, neighbors)`
with `id` equal to the current node count leaves node `id`'s record holding,
at every layer below `layer_count`, exactly the supplied neighbors minus
self-ids, minus the `INVALID_NODE_ID` sentinel, and minus every id at or
above the node count at the start of the call (forward edges only to
already-existing nodes). `hwf` is the graph-zone invariant that each written
record sits at its own id; `hml` reflects that `max_layers` is a `u8`. -/
theorem link_node_writes_filtered_forward_edges (g : GraphState)
    (node_id layer_count : Nat) (npl : List (List Nat)) (g' : GraphState)
    (hwf : RecordsWF g) (hml : g.params.max_layers ≤ 255)
    (hok : g.link_node_bidirectional node_id layer_count npl = .ok g')
    (l : Nat) (hl : l < layer_count) :
    ∃ r, g'.records node_id = some r ∧
      r.get_neighbors l = (npl.getD l []).filter (fun id =>
        decide (id ≠ node_id ∧ id ≠ INVALID_NODE_ID ∧ id < g.node_count)) := by
  unfold GraphState.link_node_bidirectional at hok
  by_cases hguard1 : node_id ≠ g.node_count
  · rw [if_pos hguard1] at hok
    exact absurd hok (by simp)
  rw [if_neg hguard1] at hok
  by_cases hguard2 : npl.length ≠ layer_count
  · rw [if_pos hguard2] at hok
    exact absurd hok (by simp)
  rw [if_neg hguard2] at hok
  obtain ⟨nr, hset, hok2⟩ := except_bind_ok _ _ _ hok
  obtain ⟨g₃, hbl, hok3⟩ := except_bind_ok _ _ _ hok2
  obtain ⟨hnid, hlc, hpar, hspec⟩ := set_layers_ok_spec _ _ _ hset
  have hnplen : npl.length = layer_count := by omega
  have hflen : (filtered_forward node_id g.node_count npl).length = layer_count := by
    unfold filtered_forward
    simpa using hnplen
  -- layer_count fits in a u8, so the cast is the identity
  have hlcount : layer_count ≤ 255 := by
    have hk := hspec (layer_count - 1) (by omega)
    have : layer_count - 1 < (NodeRec.new node_id (layer_count % 256) g.params).params.max_layers :=
      hk.1
    simp only [NodeRec.new] at this
    omega
  have hmod : layer_count % 256 = layer_count := Nat.mod_eq_of_lt (by omega)
  -- the record written for node_id
  obtain ⟨hown, _, _, _⟩ := write_and_bump_fields g nr
  have hnrid : nr.node_id = node_id := by
    rw [hnid]
    rfl
  -- backward links never touch node_id's record
  have hids : ∀ p ∈ (filtered_forward node_id g.node_count npl).enum,
      ∀ nid ∈ p.2, nid ≠ node_id := by
    intro p hp nid hn
    have hp2 := mem_of_mem_enum _ p hp
    unfold filtered_forward at hp2
    obtain ⟨lnp, _, hlnp⟩ := List.mem_map.1 hp2
    rw [← hlnp] at hn
    have := (List.mem_filter.1 hn).2
    have hcond := of_decide_eq_true this
    exact hcond.1
  obtain ⟨hg₃rec, _, _, _⟩ := backlinks_pass_preserves node_id _ _ _ hbl
    (write_and_bump_wf g nr hwf) hids
  have hg₃node : g₃.records node_id = some nr := by
    rw [hg₃rec, ← hnrid, hown]
  -- the final entry-point update leaves records unchanged
  have hg'rec : g'.records node_id = some nr := by
    by_cases hc : g₃.entry_point = none ∨ g₃.max_layer < layer_count - 1
    · rw [if_pos hc] at hok3
      simp only [Except.ok.injEq] at hok3
      rw [← hok3]
      exact hg₃node
    · rw [if_neg hc] at hok3
      simp only [Except.ok.injEq] at hok3
      rw [← hok3]
      exact hg₃node
  refine ⟨nr, hg'rec, ?_⟩
  -- layer l of the written record holds exactly the filtered neighbors
  have hlf : l < (filtered_forward node_id g.node_count npl).length := by omega
  obtain ⟨hlml, hllen, hlslots⟩ := hspec l hlf
  simp only [NodeRec.new] at hlml hllen hlslots
  rw [filtered_forward_getD node_id g.node_count l npl (by omega)] at hllen hlslots
  apply get_neighbors_eq_of_slots
  · rw [hlc]
    simp only [NodeRec.new]
    omega
  · rw [hpar]
    simpa using hllen
  · intro x hx
    have := (List.mem_filter.1 hx).2
    exact (of_decide_eq_true this).2.1
  · rw [hpar]
    intro j hj
    exact hlslots j (by simpa using hj)

def c7rec0 : NodeRec := ⟨0, 1, 0, ⟨1, 2, 2⟩, fun _ => INVALID_NODE_ID⟩

def c7graph : GraphState :=
  ⟨⟨1, 2, 2⟩, fun i => if i = 0 then some c7rec0 else none, 1, some 0, 0, fun _ _ => 0⟩

def c7npl : List (List Nat) := [[0, 1, 5, INVALID_NODE_ID]]

def c7after : GraphState :=
  ((c7graph.link_node_bidirectional 1 1 c7npl).toOption).getD c7graph

theorem c7graph_wf : RecordsWF c7graph := by
  intro i r h
  by_cases hi : i = 0
  · subst hi
    simp only [c7graph] at h
    simp at h
    rw [← h]
    rfl
  · simp [c7graph, hi] at h

/-- Witness for C7: linking node 1 with supplied layer-0 neighbors
`[0, 1, 5, INVALID_NODE_ID]` (a self-link, a not-yet-existing id and the
sentinel among them) stores exactly `[0]`. -/
theorem link_node_writes_filtered_forward_edges_witness :
    (c7graph.link_node_bidirectional 1 1 c7npl = .ok c7after) ∧
    ((c7npl.getD 0 []).filter (fun id =>
      decide (id ≠ 1 ∧ id ≠ INVALID_NODE_ID ∧ id < c7graph.node_count)) = [0]) ∧
    (∃ r, c7after.records 1 = some r ∧
      r.get_neighbors 0 = (c7npl.getD 0 []).filter (fun id =>
        decide (id ≠ 1 ∧ id ≠ INVALID_NODE_ID ∧ id < c7graph.node_count))) :=
  ⟨rfl, by decide,
   link_node_writes_filtered_forward_edges c7graph 1 1 c7npl c7after
     c7graph_wf (by decide) rfl 0 (by decide)⟩

/-! ### Search (`hnsw/search.rs`)

`SearchGraph` is the read-side view of the graph used by search:
`nbrs id layer` is the id sequence produced by `neighbors_iter_from_mmap`
(sentinel entries already filtered out; dangling or garbage ids are
possible), and the query is folded into the distance oracle `dist id`,
abstracting `compute_distance_zero_copy(query, id)`. Distances live in `ℚ`
with its linear order, modelling `f32::total_cmp`. The two `BinaryHeap`s are
modelled as lists with extremal-element extraction; every property proved
below is independent of which maximal/minimal element a heap returns among
ties. -/

structure SearchGraph where
  node_count : Nat
  entry_point : Option Nat
  max_layer : Nat
  nbrs : Nat → Nat → List Nat

/-- `search.rs::SearchResult`. -/
structure SearchResult where
  id : Nat
  distance : Rat
deriving DecidableEq

/-- `search.rs::VisitedFilter`: dense visited array sized to the node count. -/
structure VisitedFilter where
  size : Nat
  visited : Nat → Bool

/-- `search.rs::VisitedFilter::new`. -/
def VisitedFilter.new (node_count : Nat) : VisitedFilter :=
  ⟨node_count, fun _ => false⟩

/-- `search.rs::VisitedFilter::visit`: mark and report a first visit; ids at
or past the array length are never marked and always report `false`. -/
def VisitedFilter.visit (f : VisitedFilter) (node_id : Nat) : Bool × VisitedFilter :=
  if node_id < f.size then
    (!(f.visited node_id),
     ⟨f.size, fun j => if j = node_id then true else f.visited j⟩)
  else (false, f)

/-- Pop a maximal element (by distance) of the `results` max-heap. -/
def popMaxSR : List SearchResult → Option (SearchResult × List SearchResult)
  | [] => none
  | x :: xs =>
    match popMaxSR xs with
    | none => some (x, [])
    | some (m, rest) =>
      if m.distance ≤ x.distance then some (x, xs) else some (m, x :: rest)

/-- Pop a minimal element (by distance) of the `candidates` min-heap
(`BinaryHeap<Reverse<SearchResult>>`). -/
def popMinSR : List SearchResult → Option (SearchResult × List SearchResult)
  | [] => none
  | x :: xs =>
    match popMinSR xs with
    | none => some (x, [])
    | some (m, rest) =>
      if x.distance ≤ m.distance then some (x, xs) else some (m, x :: rest)

/-- `results.peek()`: a maximal element of the results heap. -/
def peekMaxSR (l : List SearchResult) : Option SearchResult :=
  (popMaxSR l).map Prod.fst

/-- Mutable state of `search_layer_optimized`: the visited filter and the two
heaps. -/
structure SearchSt where
  vf : VisitedFilter
  cands : List SearchResult
  res : List SearchResult

/-- Neighbor-expansion body of `search_layer_optimized` (`search.rs` lines
245–268): on a first visit compute the distance, test admission against the
worst result, push into both heaps, and evict the worst when `results`
overflows `ef`. -/
def expand_step (dist : Nat → Rat) (ef : Nat) (st : SearchSt) (neighbor_id : Nat) :
    SearchSt :=
  let v := st.vf.visit neighbor_id
  if v.1 then
    let d := dist neighbor_id
    let should_add :=
      if st.res.length < ef then true
      else
        match peekMaxSR st.res with
        | some worst => decide (d < worst.distance)
        | none => false
    if should_add then
      let res' := SearchResult.mk neighbor_id d :: st.res
      let res'' :=
        if ef < res'.length then
          match popMaxSR res' with
          | some p => p.2
          | none => res'
        else res'
      ⟨v.2, SearchResult.mk neighbor_id d :: st.cands, res''⟩
    else ⟨v.2, st.cands, st.res⟩
  else { st with vf := v.2 }

/-- Main loop of `search_layer_optimized` (`search.rs` lines 233–269),
written with explicit fuel: each iteration pops the closest candidate,
applies the early-termination test, and expands its neighbors. The fuel
passed below, `2 * node_count + 2`, dominates the loop's strictly decreasing
measure `2 * (unvisited live nodes) + |candidates|`; all properties proved
here hold for every fuel. -/
def search_loop (g : SearchGraph) (dist : Nat → Rat) (ef layer : Nat) :
    Nat → SearchSt → List SearchResult
  | 0, st => st.res
  | fuel + 1, st =>
    match popMinSR st.cands with
    | none => st.res
    | some (current, rest) =>
      let stop :=
        if ef ≤ st.res.length then
          match peekMaxSR st.res with
          | some worst => decide (worst.distance < current.distance)
          | none => false
        else false
      if stop then st.res
      else
        search_loop g dist ef layer fuel
          ((g.nbrs current.id layer).foldl (expand_step dist ef) ⟨st.vf, rest, st.res⟩)

/-- `search.rs::HnswGraph::search_layer_optimized`: seed both heaps with the
entry, run the loop, and return the results sorted ascending by total-order
distance (the stable `sort_by(total_cmp)` is modelled by `insertionSort`). -/
def search_layer_optimized (g : SearchGraph) (dist : Nat → Rat) (entry : Nat)
    (ef layer : Nat) : List SearchResult :=
  let entry_dist := dist entry
  let visited := ((VisitedFilter.new g.node_count).visit entry).2
  let final := search_loop g dist ef layer (2 * g.node_count + 2)
    ⟨visited, [⟨entry, entry_dist⟩], [⟨entry, entry_dist⟩]⟩
  final.insertionSort (fun a b => a.distance ≤ b.distance)

/-- Mutable state of `search_layer_greedy`. -/
structure GreedySt where
  vf : VisitedFilter
  best_id : Nat
  best_dist : Rat
  changed : Bool

/-- Body of the greedy pass of `search_layer_greedy` (`search.rs` lines
171–181): on a first visit, move to the neighbor when it is strictly closer
(total-order comparison). -/
def greedy_step (dist : Nat → Rat) (st : GreedySt) (neighbor_id : Nat) : GreedySt :=
  let v := st.vf.visit neighbor_id
  if v.1 then
    let d := dist neighbor_id
    if d < st.best_dist then ⟨v.2, neighbor_id, d, true⟩
    else ⟨v.2, st.best_id, st.best_dist, st.changed⟩
  else { st with vf := v.2 }

/-- The `while changed` loop of `search_layer_greedy`, with explicit fuel
(each continuing pass marks at least one new node, so `node_count + 1`
passes suffice; the properties proved below hold for every fuel). The
neighbor iterator is created from the best id at the start of the pass, as
in the source. -/
def greedy_loop (g : SearchGraph) (dist : Nat → Rat) (layer : Nat) :
    Nat → GreedySt → Nat
  | 0, st => st.best_id
  | fuel + 1, st =>
    let st' := (g.nbrs st.best_id layer).foldl (greedy_step dist)
      ⟨st.vf, st.best_id, st.best_dist, false⟩
    if st'.changed then greedy_loop g dist layer fuel st' else st'.best_id

/-- `search.rs::HnswGraph::search_layer_greedy`. -/
def search_layer_greedy (g : SearchGraph) (dist : Nat → Rat) (entry layer : Nat) :
    Nat :=
  greedy_loop g dist layer (g.node_count + 1)
    ⟨((VisitedFilter.new g.node_count).visit entry).2, entry, dist entry, true⟩

/-- `search.rs::HnswGraph::search`: empty on no entry point, silently raise
`ef` to `k`, greedy descent from `max_layer` down to layer 1, ef-search of
layer 0, truncate to `k`. -/
def hnsw_search (g : SearchGraph) (dist : Nat → Rat) (k ef : Nat) :
    List SearchResult :=
  match g.entry_point with
  | none => []
  | some entry =>
    let ef := max ef k
    let current := ((List.range g.max_layer).reverse.map (fun i => i + 1)).foldl
      (fun cur layer => search_layer_greedy g dist cur layer) entry
    let candidates := search_layer_optimized g dist current ef 0
    candidates.take k

/-! ### C5 and C9: search invariants -/

theorem visit_spec (f : VisitedFilter) (id : Nat) :
    ((f.visit id).2).size = f.size ∧
    (∀ j, ((f.visit id).2).visited j = true ↔
      (f.visited j = true ∨ (j = id ∧ id < f.size))) ∧
    ((f.visit id).1 = true ↔ (id < f.size ∧ f.visited id = false)) := by
  unfold VisitedFilter.visit
  by_cases h : id < f.size
  · rw [if_pos h]
    refine ⟨rfl, ?_, ?_⟩
    · intro j
      by_cases hj : j = id
      · subst hj
        simp [h]
      · simp [hj]
    · simp [h]
  · rw [if_neg h]
    refine ⟨rfl, ?_, ?_⟩
    · intro j
      simp [h]
    · simp [h]

theorem popMaxSR_eq_none (l : List SearchResult) (h : popMaxSR l = none) : l = [] := by
  cases l with
  | nil => rfl
  | cons x xs =>
    exfalso
    unfold popMaxSR at h
    split at h
    · simp at h
    · split at h <;> simp at h

theorem popMaxSR_perm (l : List SearchResult) :
    ∀ m rest, popMaxSR l = some (m, rest) → l.Perm (m :: rest) := by
  induction l with
  | nil =>
    intro m rest h
    simp [popMaxSR] at h
  | cons x xs ih =>
    intro m rest h
    unfold popMaxSR at h
    split at h
    next heq =>
      simp only [Option.some.injEq, Prod.mk.injEq] at h
      obtain ⟨rfl, rfl⟩ := h
      rw [popMaxSR_eq_none xs heq]
    next m' rest' heq =>
      split at h
      · simp only [Option.some.injEq, Prod.mk.injEq] at h
        obtain ⟨rfl, rfl⟩ := h
        exact List.Perm.refl _
      · simp only [Option.some.injEq, Prod.mk.injEq] at h
        obtain ⟨rfl, rfl⟩ := h
        exact ((ih m' rest' heq).cons x).trans (List.Perm.swap m' x rest')

theorem popMinSR_eq_none (l : List SearchResult) (h : popMinSR l = none) : l = [] := by
  cases l with
  | nil => rfl
  | cons x xs =>
    exfalso
    unfold popMinSR at h
    split at h
    · simp at h
    · split at h <;> simp at h

theorem popMinSR_perm (l : List SearchResult) :
    ∀ m rest, popMinSR l = some (m, rest) → l.Perm (m :: rest) := by
  induction l with
  | nil =>
    intro m rest h
    simp [popMinSR] at h
  | cons x xs ih =>
    intro m rest h
    unfold popMinSR at h
    split at h
    next heq =>
      simp only [Option.some.injEq, Prod.mk.injEq] at h
      obtain ⟨rfl, rfl⟩ := h
      rw [popMinSR_eq_none xs heq]
    next m' rest' heq =>
      split at h
      · simp only [Option.some.injEq, Prod.mk.injEq] at h
        obtain ⟨rfl, rfl⟩ := h
        exact List.Perm.refl _
      · simp only [Option.some.injEq, Prod.mk.injEq] at h
        obtain ⟨rfl, rfl⟩ := h
        exact ((ih m' rest' heq).cons x).trans (List.Perm.swap m' x rest')

/-- Loop invariant of `search_layer_optimized`: the filter is sized to the
node count and marks only live ids, every heap entry is marked, and the
result ids are pairwise distinct. -/
def SInv (n : Nat) (st : SearchSt) : Prop :=
  st.vf.size = n ∧
  (∀ id, st.vf.visited id = true → id < n) ∧
  (∀ r ∈ st.cands, st.vf.visited r.id = true) ∧
  (∀ r ∈ st.res, st.vf.visited r.id = true) ∧
  (st.res.map SearchResult.id).Nodup

theorem expand_step_inv (dist : Nat → Rat) (ef n : Nat) (st : SearchSt) (nid : Nat)
    (hinv : SInv n st) : SInv n (expand_step dist ef st nid) := by
  obtain ⟨hsize, hbound, hcands, hres, hnd⟩ := hinv
  obtain ⟨hvsize, hviter, hvfresh⟩ := visit_spec st.vf nid
  have hmono : ∀ j, st.vf.visited j = true → ((st.vf.visit nid).2).visited j = true :=
    fun j hj => (hviter j).2 (Or.inl hj)
  have hbound' : ∀ id, ((st.vf.visit nid).2).visited id = true → id < n := by
    intro id hid
    rcases (hviter id).1 hid with hold | ⟨hideq, hlt⟩
    · exact hbound id hold
    · subst hideq
      rw [hsize] at hlt
      exact hlt
  unfold expand_step
  simp only []
  by_cases hfr : (st.vf.visit nid).1 = true
  case neg =>
    rw [if_neg hfr]
    exact ⟨by rw [hvsize]; exact hsize, hbound',
      fun r hr => hmono r.id (hcands r hr), fun r hr => hmono r.id (hres r hr), hnd⟩
  case pos =>
    rw [if_pos hfr]
    obtain ⟨hltn, hunv⟩ := hvfresh.1 hfr
    have hmark : ((st.vf.visit nid).2).visited nid = true :=
      (hviter nid).2 (Or.inr ⟨rfl, hltn⟩)
    have hnotin : nid ∉ st.res.map SearchResult.id := by
      intro hc
      obtain ⟨r, hr, hrid⟩ := List.mem_map.1 hc
      rw [← hrid] at hunv
      rw [hres r hr] at hunv
      simp at hunv
    by_cases hadd : (if st.res.length < ef then true
        else match peekMaxSR st.res with
          | some worst => decide (dist nid < worst.distance)
          | none => false) = true
    case neg =>
      rw [if_neg hadd]
      exact ⟨by rw [hvsize]; exact hsize, hbound',
        fun r hr => hmono r.id (hcands r hr), fun r hr => hmono r.id (hres r hr), hnd⟩
    case pos =>
      rw [if_pos hadd]
      have hnd' : ((SearchResult.mk nid (dist nid) :: st.res).map SearchResult.id).Nodup := by
        simp only [List.map_cons]
        exact List.nodup_cons.2 ⟨hnotin, hnd⟩
      have hsub : ∀ r, r ∈ (if ef < (SearchResult.mk nid (dist nid) :: st.res).length then
            match popMaxSR (SearchResult.mk nid (dist nid) :: st.res) with
            | some p => p.2
            | none => SearchResult.mk nid (dist nid) :: st.res
          else SearchResult.mk nid (dist nid) :: st.res) →
          r ∈ SearchResult.mk nid (dist nid) :: st.res := by
        intro r hr
        split at hr
        · rcases hpm : popMaxSR (SearchResult.mk nid (dist nid) :: st.res) with _ | p
          · rw [hpm] at hr
            exact hr
          · rw [hpm] at hr
            have hperm := popMaxSR_perm _ p.1 p.2 hpm
            exact hperm.symm.subset (List.mem_cons_of_mem p.1 hr)
        · exact hr
      have hnd'' : ((if ef < (SearchResult.mk nid (dist nid) :: st.res).length then
            match popMaxSR (SearchResult.mk nid (dist nid) :: st.res) with
            | some p => p.2
            | none => SearchResult.mk nid (dist nid) :: st.res
          else SearchResult.mk nid (dist nid) :: st.res).map SearchResult.id).Nodup := by
        split
        · rcases hpm : popMaxSR (SearchResult.mk nid (dist nid) :: st.res) with _ | p
          · exact hnd'
          · have hperm := popMaxSR_perm _ p.1 p.2 hpm
            have := (hperm.map SearchResult.id).nodup hnd'
            simp only [List.map_cons] at this
            exact (List.nodup_cons.1 this).2
        · exact hnd'
      refine ⟨by rw [hvsize]; exact hsize, hbound', ?_, ?_, hnd''⟩
      · intro r hr
        rcases List.mem_cons.1 hr with hh | ht
        · subst hh
          exact hmark
        · exact hmono r.id (hcands r ht)
      · intro r hr
        rcases List.mem_cons.1 (hsub r hr) with hh | ht
        · subst hh
          exact hmark
        · exact hmono r.id (hres r ht)

theorem foldl_expand_inv (dist : Nat → Rat) (ef n : Nat) (l : List Nat)
    (st : SearchSt) (hinv : SInv n st) :
    SInv n (l.foldl (expand_step dist ef) st) := by
  induction l generalizing st with
  | nil => exact hinv
  | cons x xs ih => exact ih _ (expand_step_inv dist ef n st x hinv)

theorem search_loop_spec (g : SearchGraph) (dist : Nat → Rat) (ef layer : Nat)
    (fuel : Nat) (st : SearchSt) (hinv : SInv g.node_count st) :
    ((search_loop g dist ef layer fuel st).map SearchResult.id).Nodup ∧
    (∀ r ∈ search_loop g dist ef layer fuel st, r.id < g.node_count) := by
  induction fuel generalizing st with
  | zero =>
    obtain ⟨_, hbound, _, hres, hnd⟩ := hinv
    exact ⟨hnd, fun r hr => hbound r.id (hres r hr)⟩
  | succ fuel ih =>
    obtain ⟨hsize, hbound, hcands, hres, hnd⟩ := hinv
    unfold search_loop
    rcases hpop : popMinSR st.cands with _ | p
    · exact ⟨hnd, fun r hr => hbound r.id (hres r hr)⟩
    · simp only []
      by_cases hstop : (if ef ≤ st.res.length then
          match peekMaxSR st.res with
          | some worst => decide (worst.distance < p.1.distance)
          | none => false
        else false) = true
      · rw [if_pos hstop]
        exact ⟨hnd, fun r hr => hbound r.id (hres r hr)⟩
      · rw [if_neg hstop]
        apply ih
        apply foldl_expand_inv
        refine ⟨hsize, hbound, ?_, hres, hnd⟩
        intro r hr
        apply hcands
        have hperm := popMinSR_perm st.cands p.1 p.2 hpop
        exact hperm.symm.subset (List.mem_cons_of_mem p.1 hr)

instance searchResultLeTotal :
    IsTotal SearchResult (fun a b => a.distance ≤ b.distance) :=
  ⟨fun a b => le_total a.distance b.distance⟩

instance searchResultLeTrans :
    IsTrans SearchResult (fun a b => a.distance ≤ b.distance) :=
  ⟨fun _ _ _ hab hbc => le_trans hab hbc⟩

theorem length_le_of_nodup_bounded (l : List Nat) (n : Nat) (hnd : l.Nodup)
    (hb : ∀ x ∈ l, x < n) : l.length ≤ n := by
  have h1 : l.toFinset ⊆ Finset.range n := by
    intro x hx
    rw [List.mem_toFinset] at hx
    rw [Finset.mem_range]
    exact hb x hx
  have h2 := Finset.card_le_card h1
  rw [Finset.card_range, List.toFinset_card_of_nodup hnd] at h2
  exact h2

theorem search_layer_optimized_spec (g : SearchGraph) (dist : Nat → Rat)
    (entry ef layer : Nat) (he : entry < g.node_count) :
    ((search_layer_optimized g dist entry ef layer).map SearchResult.id).Nodup ∧
    (∀ r ∈ search_layer_optimized g dist entry ef layer, r.id < g.node_count) ∧
    (search_layer_optimized g dist entry ef layer).Sorted
      (fun a b => a.distance ≤ b.distance) := by
  obtain ⟨hvsize, hviter, _⟩ := visit_spec (VisitedFilter.new g.node_count) entry
  have hinv : SInv g.node_count
      ⟨((VisitedFilter.new g.node_count).visit entry).2,
       [⟨entry, dist entry⟩], [⟨entry, dist entry⟩]⟩ := by
    have hmark : (((VisitedFilter.new g.node_count).visit entry).2).visited entry
        = true := by
      apply (hviter entry).2
      right
      exact ⟨rfl, by simpa [VisitedFilter.new] using he⟩
    refine ⟨by simpa [VisitedFilter.new] using hvsize, ?_, ?_, ?_, by simp⟩
    · intro id hid
      rcases (hviter id).1 hid with hold | ⟨hideq, hlt⟩
      · simp [VisitedFilter.new] at hold
      · subst hideq
        simpa [VisitedFilter.new] using hlt
    · intro r hr
      rcases List.mem_singleton.1 hr with rfl
      exact hmark
    · intro r hr
      rcases List.mem_singleton.1 hr with rfl
      exact hmark
  obtain ⟨hnd, hb⟩ := search_loop_spec g dist ef layer (2 * g.node_count + 2) _ hinv
  unfold search_layer_optimized
  simp only []
  have hperm := List.perm_insertionSort (fun (a b : SearchResult) =>
    a.distance ≤ b.distance) (search_loop g dist ef layer (2 * g.node_count + 2)
      ⟨((VisitedFilter.new g.node_count).visit entry).2,
       [⟨entry, dist entry⟩], [⟨entry, dist entry⟩]⟩)
  refine ⟨?_, ?_, ?_⟩
  · exact ((hperm.map SearchResult.id).symm).nodup hnd
  · intro r hr
    exact hb r (hperm.subset hr)
  · exact List.sorted_insertionSort _ _

theorem greedy_fold_bound (dist : Nat → Rat) (n : Nat) (l : List Nat) (st : GreedySt)
    (hsize : st.vf.size = n)
    (hbound : ∀ id, st.vf.visited id = true → id < n)
    (hbest : st.best_id < n) :
    (l.foldl (greedy_step dist) st).vf.size = n ∧
    (∀ id, (l.foldl (greedy_step dist) st).vf.visited id = true → id < n) ∧
    (l.foldl (greedy_step dist) st).best_id < n := by
  induction l generalizing st with
  | nil => exact ⟨hsize, hbound, hbest⟩
  | cons x xs ih =>
    rw [List.foldl_cons]
    obtain ⟨hvsize, hviter, hvfresh⟩ := visit_spec st.vf x
    have hbound' : ∀ id, ((st.vf.visit x).2).visited id = true → id < n := by
      intro id hid
      rcases (hviter id).1 hid with hold | ⟨hideq, hlt⟩
      · exact hbound id hold
      · subst hideq
        rw [hsize] at hlt
        exact hlt
    have hsize' : ((st.vf.visit x).2).size = n := by rw [hvsize]; exact hsize
    apply ih
    case hsize =>
      unfold greedy_step
      simp only []
      split
      · split
        · exact hsize'
        · exact hsize'
      · exact hsize'
    case hbound =>
      unfold greedy_step
      simp only []
      split
      · split
        · exact hbound'
        · exact hbound'
      · exact hbound'
    case hbest =>
      unfold greedy_step
      simp only []
      split
      next hfr =>
        split
        · obtain ⟨hlt, _⟩ := hvfresh.1 hfr
          rw [hsize] at hlt
          exact hlt
        · exact hbest
      next => exact hbest

theorem greedy_loop_bound (g : SearchGraph) (dist : Nat → Rat) (layer fuel : Nat)
    (st : GreedySt) (hsize : st.vf.size = g.node_count)
    (hbound : ∀ id, st.vf.visited id = true → id < g.node_count)
    (hbest : st.best_id < g.node_count) :
    greedy_loop g dist layer fuel st < g.node_count := by
  induction fuel generalizing st with
  | zero => exact hbest
  | succ fuel ih =>
    unfold greedy_loop
    simp only []
    obtain ⟨h1, h2, h3⟩ := greedy_fold_bound dist g.node_count
      (g.nbrs st.best_id layer) ⟨st.vf, st.best_id, st.best_dist, false⟩
      hsize hbound hbest
    split
    · exact ih _ h1 h2 h3
    · exact h3

theorem search_layer_greedy_bound (g : SearchGraph) (dist : Nat → Rat)
    (entry layer : Nat) (he : entry < g.node_count) :
    search_layer_greedy g dist entry layer < g.node_count := by
  unfold search_layer_greedy
  apply greedy_loop_bound
  · simpa [VisitedFilter.new] using
      (visit_spec (VisitedFilter.new g.node_count) entry).1
  · intro id hid
    obtain ⟨_, hviter, _⟩ := visit_spec (VisitedFilter.new g.node_count) entry
    rcases (hviter id).1 hid with hold | ⟨hideq, hlt⟩
    · simp [VisitedFilter.new] at hold
    · subst hideq
      simpa [VisitedFilter.new] using hlt
  · exact he

theorem greedy_descent_bound (g : SearchGraph) (dist : Nat → Rat) (layers : List Nat)
    (entry : Nat) (he : entry < g.node_count) :
    layers.foldl (fun cur layer => search_layer_greedy g dist cur layer) entry
      < g.node_count := by
  induction layers generalizing entry with
  | nil => exact he
  | cons x xs ih =>
    rw [List.foldl_cons]
    exact ih _ (search_layer_greedy_bound g dist entry x he)

/-- C5: on any reachable graph state (valid entry point), `search` returns a
list of pairwise-distinct ids, of length at most `min(k, node_count)`,
sorted non-decreasing by the total-order distance comparison, and it returns
the empty list when the graph has no entry point. The model is total (no
panic); f32 `total_cmp` is abstracted by the linear order of `ℚ`, under
which NaN-valued distances are just ordinary oracle values. -/
theorem hnsw_search_invariants (g : SearchGraph) (dist : Nat → Rat) (k ef : Nat) :
    (g.entry_point = none → hnsw_search g dist k ef = []) ∧
    (∀ e, g.entry_point = some e → e < g.node_count →
      ((hnsw_search g dist k ef).map SearchResult.id).Nodup ∧
      (hnsw_search g dist k ef).length ≤ min k g.node_count ∧
      (hnsw_search g dist k ef).Sorted (fun a b => a.distance ≤ b.distance)) := by
  constructor
  · intro h
    unfold hnsw_search
    rw [h]
  · intro e he hlt
    unfold hnsw_search
    rw [he]
    simp only []
    have hcb : ((List.range g.max_layer).reverse.map (fun i => i + 1)).foldl
        (fun cur layer => search_layer_greedy g dist cur layer) e < g.node_count :=
      greedy_descent_bound g dist _ e hlt
    obtain ⟨hnd, hb, hsort⟩ := search_layer_optimized_spec g dist _ (max ef k) 0 hcb
    refine ⟨?_, ?_, ?_⟩
    · rw [List.map_take]
      exact ((List.take_sublist k _).nodup hnd)
    · rw [List.length_take]
      have hlen : (search_layer_optimized g dist
          (((List.range g.max_layer).reverse.map (fun i => i + 1)).foldl
            (fun cur layer => search_layer_greedy g dist cur layer) e)
          (max ef k) 0).length ≤ g.node_count := by
        have hmapnd := hnd
        have := length_le_of_nodup_bounded (List.map SearchResult.id
          (search_layer_optimized g dist
            (((List.range g.max_layer).reverse.map (fun i => i + 1)).foldl
              (fun cur layer => search_layer_greedy g dist cur layer) e)
            (max ef k) 0)) g.node_count hmapnd ?_
        · simpa using this
        · intro x hx
          obtain ⟨r, hr, hrid⟩ := List.mem_map.1 hx
          rw [← hrid]
          exact hb r hr
      exact min_le_min le_rfl hlen
    · exact List.Pairwise.sublist (List.take_sublist k _) hsort

/-- C9: provided the entry point id is below `node_count`, `search` never
returns an id at or above `node_count` — the dense visited filter refuses to
mark out-of-range ids, so garbage neighbor ids read from a record are
neither expanded nor admitted into the result heap. -/
theorem hnsw_search_ids_bounded (g : SearchGraph) (dist : Nat → Rat) (k ef : Nat)
    (e : Nat) (he : g.entry_point = some e) (hlt : e < g.node_count) :
    ∀ r ∈ hnsw_search g dist k ef, r.id < g.node_count := by
  intro r hr
  unfold hnsw_search at hr
  rw [he] at hr
  simp only [] at hr
  have hcb : ((List.range g.max_layer).reverse.map (fun i => i + 1)).foldl
      (fun cur layer => search_layer_greedy g dist cur layer) e < g.node_count :=
    greedy_descent_bound g dist _ e hlt
  obtain ⟨_, hb, _⟩ := search_layer_optimized_spec g dist _ (max ef k) 0 hcb
  exact hb r (List.mem_of_mem_take hr)

def c59graph : SearchGraph :=
  ⟨2, some 0, 1, fun id l =>
    if id = 0 ∧ l = 0 then [1, 7]
    else if id = 1 ∧ l = 0 then [0]
    else if id = 0 ∧ l = 1 then [1] else []⟩

def c59dist : Nat → Rat := fun id => if id = 0 then 1 else 0

/-- Witness for C5 at a two-node graph whose records also hold the garbage
neighbor id 7. -/
theorem hnsw_search_invariants_witness :
    ((hnsw_search c59graph c59dist 2 2).map SearchResult.id).Nodup ∧
    (hnsw_search c59graph c59dist 2 2).length ≤ min 2 c59graph.node_count ∧
    (hnsw_search c59graph c59dist 2 2).Sorted (fun a b => a.distance ≤ b.distance) :=
  (hnsw_search_invariants c59graph c59dist 2 2).2 0 rfl (by decide)

/-- Witness for C9 at the same two-node graph: the garbage neighbor id 7 is
never returned. -/
theorem hnsw_search_ids_bounded_witness :
    (hnsw_search c59graph c59dist 3 2).all
      (fun r => decide (r.id < c59graph.node_count)) = true := by
  rw [List.all_eq_true]
  intro r hr
  exact decide_eq_true
    (hnsw_search_ids_bounded c59graph c59dist 3 2 0 rfl (by decide) r hr)
